import Mathlib

/-!
Verification of the Mafl configuration pipeline (`src/server/utils/config.ts`).

The TypeScript source is shallowly embedded over a JSON-like value type
`JValue`: YAML documents, configuration objects and zod parse results are all
such values.  External collaborators (the storage layer, the YAML parser, the
identifier generator) are modelled as explicit inputs to the embedded
functions.  The zod schema combinators used by `validateConfigSchema`, the
`defu` deep merge, and the `JSON.stringify` replacer semantics used by
`extractSafelyConfig` and the error formatter are translated from the
behaviour of those libraries as invoked by the source.
-/

set_option autoImplicit false

namespace Mafl

/-- A JSON/YAML-like value: the shape of parsed configuration documents.
Objects are ordered association lists, matching JavaScript object key order. -/
inductive JValue where
  | null
  | bool (b : Bool)
  | num (n : Int)
  | str (s : String)
  | arr (items : List JValue)
  | obj (fields : List (String × JValue))
deriving Repr

abbrev JField := String × JValue

mutual

/-- Structural equality test on `JValue`. -/
def jeq : JValue → JValue → Bool
  | .null, .null => true
  | .bool a, .bool b => a = b
  | .num a, .num b => a = b
  | .str a, .str b => a = b
  | .arr xs, .arr ys => jeqList xs ys
  | .obj fs, .obj gs => jeqFields fs gs
  | _, _ => false

def jeqList : List JValue → List JValue → Bool
  | [], [] => true
  | x :: xs, y :: ys => jeq x y && jeqList xs ys
  | _, _ => false

def jeqFields : List JField → List JField → Bool
  | [], [] => true
  | (k, v) :: fs, (l, w) :: gs => k = l && jeq v w && jeqFields fs gs
  | _, _ => false

end

mutual

theorem jeq_iff : ∀ (a b : JValue), jeq a b = true ↔ a = b
  | .null, b => by cases b <;> simp [jeq]
  | .bool x, b => by cases b <;> simp [jeq]
  | .num x, b => by cases b <;> simp [jeq]
  | .str x, b => by cases b <;> simp [jeq]
  | .arr xs, b => by
    cases b with
    | arr ys => simpa [jeq] using jeqList_iff xs ys
    | null => simp [jeq]
    | bool y => simp [jeq]
    | num y => simp [jeq]
    | str y => simp [jeq]
    | obj gs => simp [jeq]
  | .obj fs, b => by
    cases b with
    | obj gs => simpa [jeq] using jeqFields_iff fs gs
    | null => simp [jeq]
    | bool y => simp [jeq]
    | num y => simp [jeq]
    | str y => simp [jeq]
    | arr ys => simp [jeq]

theorem jeqList_iff : ∀ (xs ys : List JValue), jeqList xs ys = true ↔ xs = ys
  | [], ys => by cases ys <;> simp [jeqList]
  | x :: xs, ys => by
    cases ys with
    | nil => simp [jeqList]
    | cons y ys => simp [jeqList, jeq_iff x y, jeqList_iff xs ys]

theorem jeqFields_iff : ∀ (fs gs : List JField), jeqFields fs gs = true ↔ fs = gs
  | [], gs => by cases gs <;> simp [jeqFields]
  | (k, v) :: fs, gs => by
    cases gs with
    | nil => simp [jeqFields]
    | cons g gs =>
      obtain ⟨l, w⟩ := g
      simp [jeqFields, jeq_iff v w, jeqFields_iff fs gs, Prod.ext_iff]

end

instance : DecidableEq JValue := fun a b => decidable_of_iff _ (jeq_iff a b)

/-- Property lookup on an ordered field list (JS objects have unique keys;
on a duplicate this returns the first occurrence). -/
def jlookup : List JField → String → Option JValue
  | [], _ => none
  | (k, v) :: fs, key => if k = key then some v else jlookup fs key

/-- `config.key` in JS: property access, `undefined` (`none`) on non-objects. -/
def jfield : JValue → String → Option JValue
  | .obj fs, key => jlookup fs key
  | _, _ => none

/-- JS property assignment `o[k] = v`: replaces the value in place if the key
exists, otherwise appends the key at the end (JS insertion order). -/
def setOrAppend : List JField → String → JValue → List JField
  | [], k, v => [(k, v)]
  | (k, w) :: fs, key, v =>
    if k = key then (k, v) :: fs else (k, w) :: setOrAppend fs key v

/-- JS truthiness of a value. -/
def truthy : JValue → Bool
  | .null => false
  | .bool b => b
  | .num n => n != 0
  | .str s => s ≠ ""
  | .arr _ => true
  | .obj _ => true

def keysOf (fs : List JField) : List String := fs.map Prod.fst

/-! ## The zod schema model (`validateConfigSchema`)

zod object schemas run in the default "strip" mode: unrecognized keys are
accepted but dropped from the parse result.  A parse either succeeds with the
(reconstructed) value or fails with the list of issues, each carrying the
path of the offending field. -/

/-- One zod validation issue: a field path and a human-readable message. -/
structure ZIssue where
  path : List String
  message : String
deriving DecidableEq, Repr

/-- Prefix a path segment onto the issues of a nested parse. -/
def issuesUnder (k : String) (is : List ZIssue) : List ZIssue :=
  is.map (fun i => ⟨k :: i.path, i.message⟩)

def typeName : JValue → String
  | .null => "null"
  | .bool _ => "boolean"
  | .num _ => "number"
  | .str _ => "string"
  | .arr _ => "array"
  | .obj _ => "object"

abbrev ZParse := JValue → Except (List ZIssue) JValue

/-- `z.string()` -/
def zString : ZParse
  | .str s => .ok (.str s)
  | v => .error [⟨[], "Expected string, received " ++ typeName v⟩]

/-- `z.string().nullish().optional()` applied to a present value. -/
def zStringNullish : ZParse
  | .str s => .ok (.str s)
  | .null => .ok .null
  | v => .error [⟨[], "Expected string, received " ++ typeName v⟩]

/-- `z.boolean()` -/
def zBoolean : ZParse
  | .bool b => .ok (.bool b)
  | v => .error [⟨[], "Expected boolean, received " ++ typeName v⟩]

/-- `z.number()` -/
def zNumber : ZParse
  | .num n => .ok (.num n)
  | v => .error [⟨[], "Expected number, received " ++ typeName v⟩]

/-- `z.record(z.any())`: any object is accepted with its values untouched. -/
def zRecordAny : ZParse
  | .obj fs => .ok (.obj fs)
  | v => .error [⟨[], "Expected object, received " ++ typeName v⟩]

/-- One declared key of a `z.object` shape. -/
structure FieldSpec where
  key : String
  required : Bool
  parse : ZParse

/-- Run the declared keys of a `z.object` shape against the input fields,
collecting all issues and the parse result (strip mode: only declared keys
are committed to the output, in shape order). -/
def runFields (fields : List JField) : List FieldSpec → List ZIssue × List JField
  | [] => ([], [])
  | fs :: rest =>
    let r := runFields fields rest
    match jlookup fields fs.key with
    | none =>
      match fs.required with
      | true => (⟨[fs.key], "Required"⟩ :: r.1, r.2)
      | false => r
    | some v =>
      match fs.parse v with
      | .ok w => (r.1, (fs.key, w) :: r.2)
      | .error es => (issuesUnder fs.key es ++ r.1, r.2)

/-- `z.object({...})` in default strip mode. -/
def zObject (specs : List FieldSpec) : ZParse := fun v =>
  match v with
  | .obj fields =>
    let r := runFields fields specs
    if r.1.isEmpty then .ok (.obj r.2) else .error r.1
  | w => .error [⟨[], "Expected object, received " ++ typeName w⟩]

/-- Elements of a `z.array`, with index path prefixes. -/
def runElems (elem : ZParse) : List JValue → Nat → List ZIssue × List JValue
  | [], _ => ([], [])
  | x :: xs, i =>
    let r := runElems elem xs (i + 1)
    match elem x with
    | .ok w => (r.1, w :: r.2)
    | .error es => (issuesUnder (toString i) es ++ r.1, r.2)

/-- `z.array(elem)` -/
def zArray (elem : ZParse) : ZParse := fun v =>
  match v with
  | .arr xs =>
    let r := runElems elem xs 0
    if r.1.isEmpty then .ok (.arr r.2) else .error r.1
  | w => .error [⟨[], "Expected array, received " ++ typeName w⟩]

/-- Values of a `z.record`, with key path prefixes. -/
def runValues (elem : ZParse) : List JField → List ZIssue × List JField
  | [] => ([], [])
  | (k, v) :: fs =>
    let r := runValues elem fs
    match elem v with
    | .ok w => (r.1, (k, w) :: r.2)
    | .error es => (issuesUnder k es ++ r.1, r.2)

/-- `z.record(elem)`: rejects non-objects (including arrays). -/
def zRecord (elem : ZParse) : ZParse := fun v =>
  match v with
  | .obj fs =>
    let r := runValues elem fs
    if r.1.isEmpty then .ok (.obj r.2) else .error r.1
  | w => .error [⟨[], "Expected object, received " ++ typeName w⟩]

/-- `z.union([a, b])`: first success wins; when both branches fail the issues
of both are reported (as `ZodError.format` does via `unionErrors`). -/
def zUnion (a b : ZParse) : ZParse := fun v =>
  match a v with
  | .ok w => .ok w
  | .error ea =>
    match b v with
    | .ok w => .ok w
    | .error eb => .error (ea ++ eb)

/-- The `status` schema of the source. -/
def statusSchema : ZParse :=
  zObject [⟨"enabled", false, zBoolean⟩, ⟨"interval", false, zNumber⟩]

/-- The `icon` schema of the source. -/
def iconSchema : ZParse :=
  zObject [⟨"url", false, zString⟩, ⟨"name", false, zString⟩,
           ⟨"wrap", false, zBoolean⟩, ⟨"background", false, zString⟩,
           ⟨"color", false, zString⟩]

/-- The `tag` schema of the source: `name` and `color` are both required. -/
def tagSchema : ZParse :=
  zObject [⟨"name", true, zString⟩, ⟨"color", true, zString⟩]

/-- The `service` schema of the source. -/
def serviceSchema : ZParse :=
  zObject [⟨"title", false, zStringNullish⟩, ⟨"description", false, zStringNullish⟩,
           ⟨"link", false, zStringNullish⟩, ⟨"target", false, zString⟩,
           ⟨"icon", false, iconSchema⟩, ⟨"status", false, statusSchema⟩,
           ⟨"type", false, zString⟩, ⟨"options", false, zRecordAny⟩,
           ⟨"secrets", false, zRecordAny⟩]

/-- The top-level configuration schema: `services` is the only required key. -/
def configSchema : ZParse :=
  zObject [⟨"title", false, zString⟩, ⟨"lang", false, zString⟩,
           ⟨"theme", false, zString⟩, ⟨"checkUpdates", false, zBoolean⟩,
           ⟨"tags", false, zArray tagSchema⟩,
           ⟨"services", true, zUnion (zArray serviceSchema) (zRecord (zArray serviceSchema))⟩]

/-- `validateConfigSchema(config)`: `schema.parse(config)`. -/
def validateConfigSchema (v : JValue) : Except (List ZIssue) JValue :=
  configSchema v

example : validateConfigSchema (.obj [("services", .arr [])]) =
    .ok (.obj [("services", .arr [])]) := by rfl

example : (validateConfigSchema (.obj [("title", .str "t")])).isOk = false := by rfl

example : validateConfigSchema (.obj [("foo", .num 1), ("services", .arr [])]) =
    .ok (.obj [("services", .arr [])]) := by rfl

example : validateConfigSchema
    (.obj [("services", .arr [.obj [("tags", .arr [.str "x"])]])]) =
    .ok (.obj [("services", .arr [.obj []])]) := by rfl

example : (.obj [("a", .null)] : JValue) ≠ .obj [] := by decide

/-! ## Tag resolution and service normalization

`determineService` assigns each service a fresh identifier from the external
generator `crypto.randomUUID`, modelled as a function `gen : Nat → String`
together with a running call counter, and resolves the service's tag
references against the tag map. -/

/-- A JS `Map` as used for the tag lookup.  Keys are `tag.name` property
values; `none` models the JS `undefined` key arising from a tag object with
no `name` property. -/
abbrev TagMap := List (Option JValue × JValue)

/-- `Map.get`. -/
def mapGet (m : TagMap) (k : Option JValue) : Option JValue :=
  match m with
  | [] => none
  | (k2, v) :: rest => if k2 = k then some v else mapGet rest k

/-- `Map.set`: overwrites the value of an existing key, else appends. -/
def mapSet (m : TagMap) (k : Option JValue) (v : JValue) : TagMap :=
  match m with
  | [] => [(k, v)]
  | (k2, w) :: rest =>
    if k2 = k then (k2, v) :: rest else (k2, w) :: mapSet rest k v

/-- `createTagMap(tags)`: `tags.reduce((acc, tag) => acc.set(tag.name, tag), new Map())`.
Later declarations with the same name overwrite earlier ones. -/
def createTagMap (tags : List JValue) : TagMap :=
  tags.foldl (fun acc tag => mapSet acc (jfield tag ("name")) tag) []

/-- The per-reference branch of `determineService`:
`typeof tag === 'string' ? (tags.get(tag) || { name: tag, color: 'blue' }) : tag`. -/
def resolveTag (tags : TagMap) (tag : JValue) : JValue :=
  match tag with
  | .str s =>
    match mapGet tags (some (.str s)) with
    | some t => if truthy t then t else .obj [("name", .str s), ("color", .str "blue")]
    | none => .obj [("name", .str s), ("color", .str "blue")]
  | t => t

/-- A thrown JS value as seen by the `catch` in `loadLocalConfig`. -/
inductive Thrown where
  | err (msg : String)
  | zod (issues : List ZIssue)
  | other (v : JValue)
deriving DecidableEq, Repr

instance {ε α : Type} [DecidableEq ε] [DecidableEq α] : DecidableEq (Except ε α) := fun a b =>
  match a, b with
  | .ok x, .ok y =>
    if h : x = y then .isTrue (by rw [h]) else .isFalse (fun hc => h (Except.ok.inj hc))
  | .ok _, .error _ => .isFalse (fun hc => Except.noConfusion hc)
  | .error _, .ok _ => .isFalse (fun hc => Except.noConfusion hc)
  | .error x, .error y =>
    if h : x = y then .isTrue (by rw [h]) else .isFalse (fun hc => h (Except.error.inj hc))

/-- `(item.tags || []).map(...)`: a falsy `tags` property maps to `[]`; a
truthy non-array has no `.map` method, so a `TypeError` is thrown. -/
def resolveTags (tags : TagMap) (tagsProp : Option JValue) : Except Thrown (List JValue) :=
  match tagsProp with
  | some (.arr ts) => .ok (ts.map (resolveTag tags))
  | some v =>
    if truthy v then .error (.err "item.tags.map is not a function") else .ok []
  | none => .ok []

/-- The object literal `{ ...item, id: crypto.randomUUID(), tags: ... }`.
(Validated service items are always objects; the spread of a non-object,
which only contributes fields for strings, is modelled as empty.) -/
def buildService (item : JValue) (id : String) (rtags : List JValue) : JValue :=
  let fs := match item with | .obj fs => fs | _ => []
  .obj (setOrAppend (setOrAppend fs ("id") (.str id)) ("tags") (.arr rtags))

/-- `determineService(items, tags)`: each item becomes a service with a fresh
identifier (`gen` applied to the running counter `n`) and resolved tags. -/
def determineService (gen : Nat → String) (tags : TagMap) :
    List JValue → Nat → Except Thrown (List JValue)
  | [], _ => .ok []
  | item :: rest, n =>
    match resolveTags tags (jfield item ("tags")) with
    | .error e => .error e
    | .ok rtags =>
      match determineService gen tags rest (n + 1) with
      | .error e => .error e
      | .ok svcs => .ok (buildService item (gen n) rtags :: svcs)

/-- The `else` branch of the services shape dispatch: one group per entry of
`Object.entries(config.services)`, in declared order.  (A non-array `items`
value has no `.map`, throwing a `TypeError`; unreachable after validation.) -/
def normalizeGroups (gen : Nat → String) (tags : TagMap) :
    List JField → Nat → Except Thrown (List JValue)
  | [], _ => .ok []
  | (title, items) :: rest, n =>
    match items with
    | .arr its =>
      match determineService gen tags its n with
      | .error e => .error e
      | .ok svcs =>
        match normalizeGroups gen tags rest (n + its.length) with
        | .error e => .error e
        | .ok gs => .ok (.obj [("title", .str title), ("items", .arr svcs)] :: gs)
    | _ => .error (.err "items.map is not a function")

/-- The services normalization of `loadLocalConfig`: an array of services
becomes a single titleless group; an object becomes one titled group per
entry.  Other shapes are unreachable once validation has passed; for fidelity,
`Object.entries` of a truthy non-object yields entries only for strings
(whose single-character values then fail `.map`), and `config.services || []`
turns falsy values into no entries at all. -/
def normalizeServices (gen : Nat → String) (tags : TagMap) :
    Option JValue → Except Thrown (List JValue)
  | some (.arr items) =>
    match determineService gen tags items 0 with
    | .error e => .error e
    | .ok svcs => .ok [.obj [("items", .arr svcs)]]
  | some (.obj entries) => normalizeGroups gen tags entries 0
  | some (.str s) =>
    if s = "" then .ok [] else .error (.err "items.map is not a function")
  | _ => .ok []

example :
    normalizeServices (fun n => toString n) []
      (some (.arr [.obj [("title", .str "A")]])) =
    .ok [.obj [("items", .arr [.obj [("title", .str "A"), ("id", .str "0"),
      ("tags", .arr [])]])]] := by rfl

example :
    normalizeServices (fun n => toString n) [(some (.str "x"), .obj [("name", .str "x"), ("color", .str "red")])]
      (some (.obj [("Dev", .arr [.obj [("tags", .arr [.str "x", .str "y"])]])])) =
    .ok [.obj [("title", .str "Dev"), ("items", .arr [.obj [
      ("tags", .arr [.obj [("name", .str "x"), ("color", .str "red")],
                     .obj [("name", .str "y"), ("color", .str "blue")]]),
      ("id", .str "0")]])]] := by rfl

/-! ## The `defu` deep merge

`defu(base, defaults)` copies the defaults and then walks the base object's
keys in order: `null` (and `undefined`) base values are skipped, arrays are
concatenated base-before-defaults, plain objects are merged recursively, and
every other value overwrites the default.  The prototype-pollution guard keys
are skipped.  The defaults object is never mutated (each level is copied). -/

mutual

/-- One level of `_defu`: `acc` starts as the (copied) defaults fields. -/
def defuObj : List JField → List JField → List JField
  | [], acc => acc
  | (k, v) :: rest, acc =>
    if k = "__proto__" ∨ k = "constructor" then defuObj rest acc
    else
      match v with
      | .null => defuObj rest acc
      | w => defuObj rest (setOrAppend acc k (mergeVal w (jlookup acc k)))

/-- How one base value combines with the current value under the same key. -/
def mergeVal : JValue → Option JValue → JValue
  | .arr a, some (.arr d) => .arr (a ++ d)
  | .obj bf, some (.obj df) => .obj (defuObj bf df)
  | w, _ => w

end

example : defuObj [("a", .num 1), ("t", .arr [.num 2])]
    [("t", .arr []), ("b", .obj [("x", .str "y")])] =
    [("t", .arr [.num 2]), ("b", .obj [("x", .str "y")]), ("a", .num 1)] := by rfl

/-! ## ZodError formatting and the error report pruning

`e.format()` turns the issue list into a tree: each node is an object holding
an `_errors` array of messages plus one child node per path segment.  The
walk executes `curr[el] = curr[el] || { _errors: [] }` at every segment and
`curr[el]._errors.push(message)` at the terminal one, keeping any truthy
existing value — so a path segment literally named `_errors` resolves to the
node's (always truthy) messages array, and a terminal push on it raises a
`TypeError` that escapes the `catch` block of `loadLocalConfig`.
`JSON.stringify(tree, replacer, ' ')` with the replacer
`(key, val) => (key === '_errors' && !val.length) ? undefined : val`
then drops every `_errors` field whose value has no truthy `length`. -/

def replaceField (fs : List JField) (key : String) (v : JValue) : List JField :=
  fs.map (fun p => if p.1 = key then (p.1, v) else p)

/-- A fresh format-tree node: `{ _errors: [] }`. -/
def emptyNode : JValue := .obj [("_errors", .arr [])]

/-- A string denotes a JS array index only in canonical decimal form
(`arr["03"]` is an expando property, not element 3). -/
def asArrayIndex (s : String) : Option Nat :=
  if s.data ≠ [] ∧ s.data.all (fun c => c.isDigit) then
    let n := s.data.foldl (fun acc c => acc * 10 + (c.toNat - 48)) 0
    if toString n = s then some n else none
  else none

/-- JS `arr[i] = v`: replaces element `i`, extending the array with holes
(serialized as `null` and falsy, like `undefined`) when `i` is past the end. -/
def arrSet (xs : List JValue) (i : Nat) (v : JValue) : List JValue :=
  if i < xs.length then xs.set i v
  else xs ++ List.replicate (i - xs.length) .null ++ [v]

/-- One issue of `ZodError.format`'s path walk, raising exactly where the
real walk raises a `TypeError`.  At `[]` the walk pushes the message into the
current value's `_errors` array — absent on a messages array (reached through
a path segment named `_errors`), on a string element or on a fresh hole, so
those raise.  Walking into an array with a canonical numeric segment indexes
it (extending with holes); a non-numeric segment on an array would create an
expando property, which `JSON.stringify` never serializes, so it is modelled
as leaving the array unchanged (with this schema such a segment is
unreachable: `_errors` can only occur as a services mapping key, directly
after the `services` segment). -/
def insertIssue : JValue → List String → String → Except Thrown JValue
  | .obj fs, [], msg =>
    (match jlookup fs ("_errors") with
     | some (.arr xs) => .ok (.obj (replaceField fs ("_errors") (.arr (xs ++ [.str msg]))))
     | _ => .error (.err "Cannot read properties of undefined (reading 'push')"))
  | .obj fs, seg :: rest, msg =>
    (match jlookup fs seg with
     | some child =>
       if truthy child then
         match insertIssue child rest msg with
         | .ok child2 => .ok (.obj (replaceField fs seg child2))
         | .error e => .error e
       else
         match insertIssue emptyNode rest msg with
         | .ok child2 => .ok (.obj (replaceField fs seg child2))
         | .error e => .error e
     | none =>
       match insertIssue emptyNode rest msg with
       | .ok child2 => .ok (.obj (fs ++ [(seg, child2)]))
       | .error e => .error e)
  | .arr _, [], _ => .error (.err "Cannot read properties of undefined (reading 'push')")
  | .arr xs, seg :: rest, msg =>
    (match asArrayIndex seg with
     | some i =>
       let cur := xs.getD i .null
       if truthy cur then
         match insertIssue cur rest msg with
         | .ok cur2 => .ok (.arr (arrSet xs i cur2))
         | .error e => .error e
       else
         match insertIssue emptyNode rest msg with
         | .ok cur2 => .ok (.arr (arrSet xs i cur2))
         | .error e => .error e
     | none => .ok (.arr xs))
  | .str _, [], _ => .error (.err "Cannot read properties of undefined (reading 'push')")
  | .str _, _ :: _, _ => .error (.err "Cannot create property on string")
  | .null, [], _ => .error (.err "Cannot read properties of undefined (reading 'push')")
  | .null, _ :: _, _ => .error (.err "Cannot create property on primitive")
  | .bool _, [], _ => .error (.err "Cannot read properties of undefined (reading 'push')")
  | .bool _, _ :: _, _ => .error (.err "Cannot create property on primitive")
  | .num _, [], _ => .error (.err "Cannot read properties of undefined (reading 'push')")
  | .num _, _ :: _, _ => .error (.err "Cannot create property on primitive")

/-- The `processError` loop of `ZodError.format()` over the issue list. -/
def insertAll : JValue → List ZIssue → Except Thrown JValue
  | t, [] => .ok t
  | t, i :: rest =>
    match insertIssue t i.path i.message with
    | .ok t2 => insertAll t2 rest
    | .error e => .error e

/-- `ZodError.format()`: fold all issues into the tree rooted at
`{ _errors: [] }`, or raise the walk's `TypeError`. -/
def formatIssues (issues : List ZIssue) : Except Thrown JValue :=
  insertAll emptyNode issues

/-- JS `!val.length`: true when the value has no truthy `length` property
(empty arrays and strings, and every value without a `length` property). -/
def lengthFalsy : JValue → Bool
  | .arr xs => xs.isEmpty
  | .str s => s.isEmpty
  | _ => true

mutual

/-- The stringify replacer of the source applied recursively: every object
field named `_errors` whose value has a falsy `length` is omitted. -/
def pruneEmpty : JValue → JValue
  | .obj fs => .obj (pruneEmptyFields fs)
  | .arr xs => .arr (pruneEmptyList xs)
  | v => v

def pruneEmptyList : List JValue → List JValue
  | [] => []
  | x :: xs => pruneEmpty x :: pruneEmptyList xs

def pruneEmptyFields : List JField → List JField
  | [] => []
  | (k, v) :: fs =>
    if k = "_errors" ∧ lengthFalsy v then pruneEmptyFields fs
    else (k, pruneEmpty v) :: pruneEmptyFields fs

end

example : (formatIssues [⟨["services"], "Required"⟩]).map pruneEmpty =
    .ok (.obj [("services", .obj [("_errors", .arr [.str "Required"])])]) := by rfl

example : formatIssues [⟨["services", "_errors"], "Required"⟩] =
    .error (.err "Cannot read properties of undefined (reading 'push')") := by rfl

/-- A lower-case hexadecimal digit, as `JSON.stringify` emits in `\u00XX`. -/
def hexDigit (n : Nat) : Char :=
  if n < 10 then Char.ofNat (48 + n) else Char.ofNat (87 + n)

/-- `JSON.stringify`'s escaping of one character inside a quoted string. -/
def escapeChar (c : Char) : String :=
  if c = Char.ofNat 34 then "\\\""
  else if c = Char.ofNat 92 then "\\\\"
  else if c = Char.ofNat 8 then "\\b"
  else if c = Char.ofNat 9 then "\\t"
  else if c = Char.ofNat 10 then "\\n"
  else if c = Char.ofNat 12 then "\\f"
  else if c = Char.ofNat 13 then "\\r"
  else if c.toNat < 32 then
    "\\u00" ++ String.mk [hexDigit (c.toNat / 16), hexDigit (c.toNat % 16)]
  else String.mk [c]

/-- `JSON.stringify` of a string value: quoted, with escapes. -/
def quoteJson (s : String) : String :=
  "\"" ++ String.join (s.data.map escapeChar) ++ "\""

mutual

/-- A rendering of a `JValue` as a JSON string: the model of
`JSON.stringify(v, _, ' ')` once the replacer has been applied — members on
their own lines, the indentation one space per depth (`ind` is the current
line prefix), `": "` between key and value, and `[]`/`\x7b\x7d` for empty
containers. -/
def stringifyVal : JValue → String → String
  | .null, _ => "null"
  | .bool b, _ => if b then "true" else "false"
  | .num n, _ => toString n
  | .str s, _ => quoteJson s
  | .arr [], _ => "[]"
  | .arr (x :: xs), ind =>
    "[\n" ++ stringifyElems (x :: xs) (ind ++ " ") ++ "\n" ++ ind ++ "]"
  | .obj [], _ => "\x7b\x7d"
  | .obj (f :: fs), ind =>
    "\x7b\n" ++ stringifyMembers (f :: fs) (ind ++ " ") ++ "\n" ++ ind ++ "\x7d"

def stringifyElems : List JValue → String → String
  | [], _ => ""
  | [x], ind => ind ++ stringifyVal x ind
  | x :: xs, ind => ind ++ stringifyVal x ind ++ ",\n" ++ stringifyElems xs ind

def stringifyMembers : List JField → String → String
  | [], _ => ""
  | [(k, v)], ind => ind ++ quoteJson k ++ ": " ++ stringifyVal v ind
  | (k, v) :: fs, ind =>
    ind ++ quoteJson k ++ ": " ++ stringifyVal v ind ++ ",\n" ++ stringifyMembers fs ind

end

/-- `JSON.stringify(v, replacer, ' ')` at the top level (empty line prefix). -/
def stringifyJson (v : JValue) : String := stringifyVal v ""

example : stringifyJson (.obj [("services", .obj [("_errors", .arr [.str "Required"])])]) =
    "\x7b\n \"services\": \x7b\n  \"_errors\": [\n   \"Required\"\n  ]\n \x7d\n\x7d" := by rfl

/-- A primitive (non-container) value: a string, number or boolean. -/
def isScalar : JValue → Bool
  | .bool _ => true
  | .num _ => true
  | .str _ => true
  | _ => false

def isArr : JValue → Bool
  | .arr _ => true
  | _ => false

/-- The object has an `_errors` member holding an array. -/
def hasErrorsArr (fs : List JField) : Bool :=
  match jlookup fs ("_errors") with
  | some (.arr _) => true
  | _ => false

mutual

/-- The invariant of the trees `ZodError.format` builds while no issue path
contains the reserved segment `_errors`: a tree is an object whose `_errors`
member is an array and whose every other member is again such a tree. -/
def goodTree : JValue → Bool
  | .obj fs => hasErrorsArr fs && goodFields fs
  | _ => false

def goodFields : List JField → Bool
  | [] => true
  | (k, v) :: fs =>
    (if k = "_errors" then isArr v else goodTree v) && goodFields fs

end

mutual

/-- No field named `_errors` anywhere in the value holds an empty (or
length-less) value: empty failure-reason leaves have been pruned. -/
def noEmptyErrors : JValue → Bool
  | .obj fs => noEmptyErrorsFields fs
  | .arr xs => noEmptyErrorsList xs
  | _ => true

def noEmptyErrorsList : List JValue → Bool
  | [] => true
  | x :: xs => noEmptyErrors x && noEmptyErrorsList xs

def noEmptyErrorsFields : List JField → Bool
  | [] => true
  | (k, v) :: fs =>
    !(k = "_errors" && lengthFalsy v) && noEmptyErrors v && noEmptyErrorsFields fs

end

/-! ## `getDefaultConfig` and `loadLocalConfig` -/

def defaultFields : List JField :=
  [("title", .str "Mafl Home Page"), ("lang", .str "en"),
   ("theme", .str "system"), ("checkUpdates", .bool true),
   ("behaviour", .obj [("target", .str "_blank")]),
   ("tags", .arr []), ("services", .arr [])]

/-- `getDefaultConfig()`. -/
def getDefaultConfig : JValue := .obj defaultFields

/-- `defaultConfig.error = ...` (appends the previously-absent field). -/
def setField (v : JValue) (key : String) (w : JValue) : JValue :=
  match v with
  | .obj fs => .obj (setOrAppend fs key w)
  | u => u

/-- The `catch` block of `loadLocalConfig`: an `Error` stores its message in
`defaultConfig.error`; a `ZodError` (also an `Error`) overwrites it with the
stringified, pruned format tree — unless `e.format()` itself raises, a raise
the `catch` block does not guard, which therefore escapes `loadLocalConfig`;
any other thrown value leaves the default untouched. -/
def catchHandler (defaultConfig : JValue) : Thrown → Except Thrown JValue
  | .err msg => .ok (setField defaultConfig ("error") (.str msg))
  | .zod issues =>
    match formatIssues issues with
    | .ok t => .ok (setField defaultConfig ("error") (.str (stringifyJson (pruneEmpty t))))
    | .error e => .error e
  | .other _ => .ok defaultConfig

/-- `const tags = createTagMap(config.tags || [])`, run before validation:
a truthy non-array `tags` property has no `.reduce`, throwing a `TypeError`,
and a `null` entry in the array throws a `TypeError` inside the reduce
callback when it reads `tag.name`. -/
def tagMapOf (config : JValue) : Except Thrown TagMap :=
  match jfield config ("tags") with
  | some v =>
    if truthy v then
      match v with
      | .arr ts =>
        if JValue.null ∈ ts then
          .error (.err "Cannot read properties of null (reading 'name')")
        else .ok (createTagMap ts)
      | _ => .error (.err "config.tags.reduce is not a function")
    else .ok (createTagMap [])
  | none => .ok (createTagMap [])

/-- The outcome of the external storage read and YAML parse, the one
asynchronous boundary of the loader.  `parsedDoc` carries the result of
`yaml.parse(raw || '') || {}`; `externalThrow` models an arbitrary value
thrown by a collaborator inside the `try` block. -/
inductive LoadOutcome where
  | notFound
  | parseFailure (msg : String)
  | parsedDoc (config : JValue)
  | externalThrow (e : Thrown)

/-- `loadLocalConfig()`, with the identifier generator and the storage/parse
outcome passed explicitly.  The `try/catch` converts each failure into the
default configuration (plus error message), except when the `catch` block's
own call to `ZodError.format()` raises: that raise escapes, and the promise
returned by `loadLocalConfig` rejects (`Except.error`). -/
def loadLocalConfig (gen : Nat → String) (outcome : LoadOutcome) : Except Thrown JValue :=
  let defaultConfig := getDefaultConfig
  match outcome with
  | .notFound => catchHandler defaultConfig (.err "Config not found")
  | .parseFailure msg => catchHandler defaultConfig (.err msg)
  | .externalThrow e => catchHandler defaultConfig e
  | .parsedDoc config =>
    match tagMapOf config with
    | .error e => catchHandler defaultConfig e
    | .ok tags =>
      match validateConfigSchema config with
      | .error issues => catchHandler defaultConfig (.zod issues)
      | .ok _ =>
        match normalizeServices gen tags (jfield config ("services")) with
        | .error e => catchHandler defaultConfig e
        | .ok services =>
          let base := match config with | .obj fs => fs | _ => []
          .ok (.obj (defuObj (setOrAppend base ("services") (.arr services)) defaultFields))

example :
    loadLocalConfig (fun n => toString n) (.parsedDoc (.obj [("services", .arr [])])) =
    .ok (.obj [("title", .str "Mafl Home Page"), ("lang", .str "en"),
          ("theme", .str "system"), ("checkUpdates", .bool true),
          ("behaviour", .obj [("target", .str "_blank")]),
          ("tags", .arr []),
          ("services", .arr [.obj [("items", .arr [])]])]) := by rfl

example :
    loadLocalConfig (fun n => toString n) .notFound =
    .ok (.obj (defaultFields ++ [("error", .str "Config not found")])) := by rfl

example :
    loadLocalConfig (fun n => toString n)
      (.parsedDoc (.obj [("services", .obj [("_errors", .num 5)])])) =
    .error (.err "Cannot read properties of undefined (reading 'push')") := by rfl

example :
    loadLocalConfig (fun n => toString n)
      (.parsedDoc (.obj [("tags", .arr [.null]), ("services", .arr [])])) =
    .ok (.obj (defaultFields ++
      [("error", .str "Cannot read properties of null (reading 'name')")])) := by rfl

/-! ## `extractSafelyConfig`

`JSON.parse(JSON.stringify(config, (key, val) => key === 'secrets' ? undefined : val))`:
a replacer returning `undefined` on an object member omits that member, so
the round trip is a deep copy with every field named `secrets` removed. -/

mutual

def stripSecrets : JValue → JValue
  | .obj fs => .obj (stripSecretsFields fs)
  | .arr xs => .arr (stripSecretsList xs)
  | v => v

def stripSecretsList : List JValue → List JValue
  | [] => []
  | x :: xs => stripSecrets x :: stripSecretsList xs

def stripSecretsFields : List JField → List JField
  | [] => []
  | (k, v) :: fs =>
    if k = "secrets" then stripSecretsFields fs
    else (k, stripSecrets v) :: stripSecretsFields fs

end

/-- `extractSafelyConfig(config)`. -/
def extractSafelyConfig (config : JValue) : JValue := stripSecrets config

mutual

/-- No field named `secrets` occurs anywhere in the value. -/
def noSecretsKey : JValue → Bool
  | .obj fs => noSecretsKeyFields fs
  | .arr xs => noSecretsKeyList xs
  | _ => true

def noSecretsKeyList : List JValue → Bool
  | [] => true
  | x :: xs => noSecretsKey x && noSecretsKeyList xs

def noSecretsKeyFields : List JField → Bool
  | [] => true
  | (k, v) :: fs => !(k = "secrets") && noSecretsKey v && noSecretsKeyFields fs

end

example : extractSafelyConfig (.obj [("a", .obj [("secrets", .obj [("token", .str "t")]),
    ("link", .str "l")])]) = .obj [("a", .obj [("link", .str "l")])] := by rfl

example : noSecretsKey (.obj [("a", .arr [.obj [("secrets", .null)]])]) = false := by rfl

/-! ## Observation functions used by the statements -/

/-- The `id` property of a normalized service. -/
def idOf (svc : JValue) : String :=
  match jfield svc ("id") with
  | some (.str s) => s
  | _ => ""

/-- The `items` array of a service group. -/
def groupItems (g : JValue) : List JValue :=
  match jfield g ("items") with
  | some (.arr xs) => xs
  | _ => []

/-- All service identifiers of a group list, in iteration order. -/
def serviceIds : List JValue → List String
  | [] => []
  | g :: gs => (groupItems g).map idOf ++ serviceIds gs

/-- The identifiers handed out by the generator for calls `n, n+1, ...,
n+len-1`. -/
def idsFrom (gen : Nat → String) (n len : Nat) : List String :=
  (List.range len).map (fun i => gen (n + i))

/-! ## Association-list and map lemmas -/

@[simp] theorem jlookup_nil (key : String) : jlookup [] key = none := rfl

theorem jlookup_cons (k : String) (v : JValue) (fs : List JField) (key : String) :
    jlookup ((k, v) :: fs) key = if k = key then some v else jlookup fs key := rfl

@[simp] theorem jlookup_setOrAppend_self (fs : List JField) (key : String) (v : JValue) :
    jlookup (setOrAppend fs key v) key = some v := by
  induction fs with
  | nil => simp [setOrAppend, jlookup]
  | cons p fs ih =>
    obtain ⟨k, w⟩ := p
    by_cases h : k = key <;> simp [setOrAppend, jlookup, h, ih]

@[simp] theorem keysOf_nil : keysOf [] = [] := rfl

@[simp] theorem keysOf_cons (k : String) (v : JValue) (fs : List JField) :
    keysOf ((k, v) :: fs) = k :: keysOf fs := rfl

theorem jlookup_setOrAppend_ne (fs : List JField) (key : String) (v : JValue)
    (k : String) (h : k ≠ key) :
    jlookup (setOrAppend fs key v) k = jlookup fs k := by
  induction fs with
  | nil => simp [setOrAppend, jlookup, Ne.symm h]
  | cons p fs ih =>
    obtain ⟨k2, w⟩ := p
    by_cases h2 : k2 = key
    · subst h2
      simp [setOrAppend, jlookup, Ne.symm h]
    · by_cases h3 : k2 = k <;> simp [setOrAppend, jlookup, h2, h3, h, ih]

theorem jlookup_eq_none_of_not_mem (fs : List JField) (key : String)
    (h : key ∉ keysOf fs) : jlookup fs key = none := by
  induction fs with
  | nil => rfl
  | cons p fs ih =>
    obtain ⟨k, v⟩ := p
    simp only [keysOf_cons, List.mem_cons, not_or] at h
    simp [jlookup, Ne.symm h.1, ih h.2]

theorem jlookup_mem_keys (fs : List JField) (key : String) (v : JValue)
    (h : jlookup fs key = some v) : key ∈ keysOf fs := by
  induction fs with
  | nil => simp [jlookup] at h
  | cons p fs ih =>
    obtain ⟨k, w⟩ := p
    by_cases h2 : k = key
    · simp [keysOf, h2]
    · simp [jlookup, h2] at h
      simpa [keysOf] using Or.inr (ih h)

@[simp] theorem mapGet_mapSet_self (m : TagMap) (k : Option JValue) (v : JValue) :
    mapGet (mapSet m k v) k = some v := by
  induction m with
  | nil => simp [mapSet, mapGet]
  | cons p m ih =>
    obtain ⟨k2, w⟩ := p
    by_cases h : k2 = k <;> simp [mapSet, mapGet, h, ih]

/-! ## Lemmas on `stripSecrets` (claim C2) -/

mutual

theorem stripSecrets_noSecrets : ∀ (v : JValue), noSecretsKey (stripSecrets v) = true
  | .null => rfl
  | .bool _ => rfl
  | .num _ => rfl
  | .str _ => rfl
  | .arr xs => by
    simpa [stripSecrets, noSecretsKey] using stripSecretsList_noSecrets xs
  | .obj fs => by
    simpa [stripSecrets, noSecretsKey] using stripSecretsFields_noSecrets fs

theorem stripSecretsList_noSecrets :
    ∀ (xs : List JValue), noSecretsKeyList (stripSecretsList xs) = true
  | [] => rfl
  | x :: xs => by
    simp [stripSecretsList, noSecretsKeyList, stripSecrets_noSecrets x,
      stripSecretsList_noSecrets xs]

theorem stripSecretsFields_noSecrets :
    ∀ (fs : List JField), noSecretsKeyFields (stripSecretsFields fs) = true
  | [] => rfl
  | (k, v) :: fs => by
    by_cases h : k = "secrets" <;>
      simp [stripSecretsFields, h, noSecretsKeyFields, stripSecrets_noSecrets v,
        stripSecretsFields_noSecrets fs]

end

mutual

theorem stripSecrets_id : ∀ (v : JValue), noSecretsKey v = true → stripSecrets v = v
  | .null, _ => rfl
  | .bool _, _ => rfl
  | .num _, _ => rfl
  | .str _, _ => rfl
  | .arr xs, h => by
    simp only [noSecretsKey] at h
    simp [stripSecrets, stripSecretsList_id xs h]
  | .obj fs, h => by
    simp only [noSecretsKey] at h
    simp [stripSecrets, stripSecretsFields_id fs h]

theorem stripSecretsList_id :
    ∀ (xs : List JValue), noSecretsKeyList xs = true → stripSecretsList xs = xs
  | [], _ => rfl
  | x :: xs, h => by
    simp only [noSecretsKeyList, Bool.and_eq_true] at h
    simp [stripSecretsList, stripSecrets_id x h.1, stripSecretsList_id xs h.2]

theorem stripSecretsFields_id :
    ∀ (fs : List JField), noSecretsKeyFields fs = true → stripSecretsFields fs = fs
  | [], _ => rfl
  | (k, v) :: fs, h => by
    simp only [noSecretsKeyFields, Bool.and_eq_true] at h
    have hk : ¬(k = "secrets") := by simpa using h.1.1
    simp [stripSecretsFields, hk, stripSecrets_id v h.1.2, stripSecretsFields_id fs h.2]

end

theorem stripSecretsFields_lookup (fs : List JField) (key : String)
    (h : key ≠ "secrets") :
    jlookup (stripSecretsFields fs) key = (jlookup fs key).map stripSecrets := by
  induction fs with
  | nil => rfl
  | cons p fs ih =>
    obtain ⟨k, v⟩ := p
    by_cases h2 : k = "secrets"
    · subst h2
      simp [stripSecretsFields, jlookup, Ne.symm h, ih]
    · by_cases h3 : k = key <;>
        simp [stripSecretsFields, h2, jlookup, h3, h, ih]

theorem stripSecretsFields_lookup_secrets (fs : List JField) :
    jlookup (stripSecretsFields fs) ("secrets") = none := by
  induction fs with
  | nil => rfl
  | cons p fs ih =>
    obtain ⟨k, v⟩ := p
    by_cases h : k = "secrets" <;> simp [stripSecretsFields, h, jlookup, ih]

/-- C2: `extractSafelyConfig` returns a copy of its input in which every
field named `secrets`, at any nesting depth, is omitted entirely: the result
contains no `secrets` key at all, a `secrets`-free input is returned
unchanged, and on objects every other field is kept with its (recursively
stripped) value while the `secrets` field itself is absent, not null.  The
input is a value of a pure function, so it is not mutated and shares no
mutable structure with the fresh result. -/
theorem extractSafelyConfig_removes_secrets (config : JValue) :
    noSecretsKey (extractSafelyConfig config) = true ∧
    (noSecretsKey config = true → extractSafelyConfig config = config) ∧
    (∀ fs key, config = .obj fs → key ≠ "secrets" →
      jfield (extractSafelyConfig config) key = (jlookup fs key).map stripSecrets) ∧
    (∀ fs, config = .obj fs → jfield (extractSafelyConfig config) ("secrets") = none) := by
  refine ⟨stripSecrets_noSecrets config, fun h => stripSecrets_id config h, ?_, ?_⟩
  · intro fs key hcfg hkey
    subst hcfg
    simpa [extractSafelyConfig, stripSecrets, jfield] using
      stripSecretsFields_lookup fs key hkey
  · intro fs hcfg
    subst hcfg
    simpa [extractSafelyConfig, stripSecrets, jfield] using
      stripSecretsFields_lookup_secrets fs

theorem extractSafelyConfig_removes_secrets_witness :
    noSecretsKey (extractSafelyConfig (.obj [("services", .arr [.obj
      [("title", .str "Git"), ("secrets", .obj [("token", .str "s3cr3t")])]])])) = true ∧
    extractSafelyConfig (.obj [("title", .str "t")]) = .obj [("title", .str "t")] ∧
    jfield (extractSafelyConfig (.obj [("a", .num 1), ("secrets", .obj [])])) ("a") =
      some (.num 1) ∧
    jfield (extractSafelyConfig (.obj [("a", .num 1), ("secrets", .obj [])])) ("secrets") =
      none := by
  refine ⟨(extractSafelyConfig_removes_secrets _).1,
    (extractSafelyConfig_removes_secrets _).2.1 (by rfl), ?_, ?_⟩
  · have h := (extractSafelyConfig_removes_secrets
      (.obj [("a", .num 1), ("secrets", .obj [])])).2.2.1 _ ("a") rfl (by decide)
    simpa using h
  · exact (extractSafelyConfig_removes_secrets
      (.obj [("a", .num 1), ("secrets", .obj [])])).2.2.2 _ rfl

/-! ## Claim C6: tag resolution -/

/-- C6: for every service's tag reference list, resolution maps the
references in order (`map` preserves order); a bare name found in the lookup
is replaced by the declared tag; a bare name not found is replaced by a new
tag with that name and the fixed fallback color `blue`; an inline tag object
passes through unchanged; and the lookup built by `createTagMap` gives the
last declaration for a duplicated name. -/
theorem resolveTag_spec (tm : TagMap) :
    (∀ ts, resolveTags tm (some (.arr ts)) = .ok (ts.map (resolveTag tm))) ∧
    (∀ s t, mapGet tm (some (.str s)) = some t → truthy t = true →
      resolveTag tm (.str s) = t) ∧
    (∀ s, mapGet tm (some (.str s)) = none →
      resolveTag tm (.str s) = .obj [("name", .str s), ("color", .str "blue")]) ∧
    (∀ fs, resolveTag tm (.obj fs) = .obj fs) ∧
    (∀ tags n c, mapGet (createTagMap (tags ++ [.obj [("name", .str n), ("color", c)]]))
      (some (.str n)) = some (.obj [("name", .str n), ("color", c)])) := by
  refine ⟨fun ts => rfl, ?_, ?_, fun fs => rfl, ?_⟩
  · intro s t hget ht
    simp [resolveTag, hget, ht]
  · intro s hget
    simp [resolveTag, hget]
  · intro tags n c
    have h : createTagMap (tags ++ [.obj [("name", .str n), ("color", c)]]) =
        mapSet (createTagMap tags) (some (.str n)) (.obj [("name", .str n), ("color", c)]) := by
      simp [createTagMap, List.foldl_append, jfield, jlookup]
    rw [h, mapGet_mapSet_self]

theorem resolveTag_spec_witness :
    resolveTags [(some (.str "x"), .obj [("name", .str "x"), ("color", .str "red")])]
      (some (.arr [.str "x", .str "y", .obj [("name", .str "z"), ("color", .str "c")]])) =
      .ok [.obj [("name", .str "x"), ("color", .str "red")],
           .obj [("name", .str "y"), ("color", .str "blue")],
           .obj [("name", .str "z"), ("color", .str "c")]] ∧
    resolveTag [(some (.str "x"), .obj [("name", .str "x"), ("color", .str "red")])]
      (.str "x") = .obj [("name", .str "x"), ("color", .str "red")] ∧
    resolveTag [] (.str "y") = .obj [("name", .str "y"), ("color", .str "blue")] ∧
    mapGet (createTagMap [.obj [("name", .str "x"), ("color", .str "red")],
        .obj [("name", .str "x"), ("color", .str "green")]]) (some (.str "x")) =
      some (.obj [("name", .str "x"), ("color", .str "green")]) := by
  refine ⟨?_, ?_, ?_, ?_⟩
  · exact (resolveTag_spec _).1 _
  · exact (resolveTag_spec _).2.1 "x" _ (by rfl) (by rfl)
  · exact (resolveTag_spec _).2.2.1 "y" (by rfl)
  · exact (resolveTag_spec []).2.2.2.2 [.obj [("name", .str "x"), ("color", .str "red")]]
      "x" (.str "green")

/-! ## Claim C10: non-Error thrown values are silent -/

/-- C10: when the value caught by `loadLocalConfig` is not an `Error`
instance, neither `if` in the catch block fires: the function returns the
default configuration with no `error` field present at all. -/
theorem loadLocalConfig_nonError_silent (gen : Nat → String) (v : JValue) :
    loadLocalConfig gen (.externalThrow (.other v)) = .ok getDefaultConfig ∧
    (loadLocalConfig gen (.externalThrow (.other v))).map
      (fun c => jfield c ("error")) = .ok none :=
  ⟨rfl, rfl⟩

/-! ## Claim C9: `services` is the only mandatory top-level field -/

theorem runFields_fst_ne_nil (fields : List JField) :
    ∀ (specs : List FieldSpec), (∃ fs ∈ specs, fs.required = true ∧
      jlookup fields fs.key = none) → (runFields fields specs).1 ≠ [] := by
  intro specs
  induction specs with
  | nil => rintro ⟨fs, h, -, -⟩; cases h
  | cons fs rest ih =>
    rintro ⟨fs2, hmem, hreq, hnone⟩
    rcases List.mem_cons.1 hmem with rfl | hmem
    · simp [runFields, hnone, hreq]
    · have h2 := ih ⟨fs2, hmem, hreq, hnone⟩
      unfold runFields
      cases hl : jlookup fields fs.key with
      | none => cases hr : fs.required <;> simp [hl, hr, h2]
      | some v =>
        cases hp : fs.parse v with
        | ok w => simp [hl, hp, h2]
        | error es => simp [hl, hp, h2]

/-- C9: a document with no `services` field (in particular any non-object
document) is rejected by `validateConfigSchema`, and `services` is the only
mandatory top-level field: the document consisting of nothing but an empty
`services` array is accepted. -/
theorem validateConfigSchema_services_required :
    (∀ v, jfield v ("services") = none →
      ∃ es, validateConfigSchema v = .error es) ∧
    validateConfigSchema (.obj [("services", .arr [])]) =
      .ok (.obj [("services", .arr [])]) := by
  constructor
  · intro v hv
    match v with
    | .null => exact ⟨_, rfl⟩
    | .bool b => exact ⟨_, rfl⟩
    | .num n => exact ⟨_, rfl⟩
    | .str s => exact ⟨_, rfl⟩
    | .arr xs => exact ⟨_, rfl⟩
    | .obj fields =>
      have hnone : jlookup fields ("services") = none := hv
      have h := runFields_fst_ne_nil fields
        [⟨"title", false, zString⟩, ⟨"lang", false, zString⟩,
         ⟨"theme", false, zString⟩, ⟨"checkUpdates", false, zBoolean⟩,
         ⟨"tags", false, zArray tagSchema⟩,
         ⟨"services", true, zUnion (zArray serviceSchema) (zRecord (zArray serviceSchema))⟩]
        ⟨⟨"services", true, zUnion (zArray serviceSchema) (zRecord (zArray serviceSchema))⟩,
          by simp, rfl, hnone⟩
      refine ⟨(runFields fields
        [⟨"title", false, zString⟩, ⟨"lang", false, zString⟩,
         ⟨"theme", false, zString⟩, ⟨"checkUpdates", false, zBoolean⟩,
         ⟨"tags", false, zArray tagSchema⟩,
         ⟨"services", true, zUnion (zArray serviceSchema) (zRecord (zArray serviceSchema))⟩]).1, ?_⟩
      unfold validateConfigSchema configSchema zObject
      simp only []
      rw [if_neg]
      simpa [List.isEmpty_iff] using h
  · rfl

theorem validateConfigSchema_services_required_witness :
    (∃ es, validateConfigSchema (.obj [("title", .str "t")]) = .error es) ∧
    validateConfigSchema (.obj [("services", .arr [])]) =
      .ok (.obj [("services", .arr [])]) :=
  ⟨validateConfigSchema_services_required.1 _ (by rfl),
   validateConfigSchema_services_required.2⟩

/-! ## Claim C5: the two services shapes normalize to groups -/

theorem normalizeGroups_shape (gen : Nat → String) (tags : TagMap) :
    ∀ (entries : List JField) (n : Nat) (groups : List JValue),
    normalizeGroups gen tags entries n = .ok groups →
    List.Forall₂ (fun (e : JField) (g : JValue) =>
      ∃ m its svcs, e.2 = .arr its ∧ determineService gen tags its m = .ok svcs ∧
        g = .obj [("title", .str e.1), ("items", .arr svcs)]) entries groups := by
  intro entries
  induction entries with
  | nil =>
    intro n groups h
    simp only [normalizeGroups, Except.ok.injEq] at h
    subst h
    exact List.Forall₂.nil
  | cons e rest ih =>
    intro n groups h
    obtain ⟨title, items⟩ := e
    cases items with
    | arr its =>
      simp only [normalizeGroups] at h
      cases hds : determineService gen tags its n with
      | error e2 => rw [hds] at h; cases h
      | ok svcs =>
        rw [hds] at h
        cases hng : normalizeGroups gen tags rest (n + its.length) with
        | error e2 => rw [hng] at h; cases h
        | ok gs =>
          rw [hng] at h
          simp only [Except.ok.injEq] at h
          subst h
          exact List.Forall₂.cons ⟨n, its, svcs, rfl, hds, rfl⟩ (ih _ _ hng)
    | null => cases h
    | bool b => cases h
    | num m => cases h
    | str s => cases h
    | obj fs => cases h

/-- C5: normalization of a validated `services` value: a flat sequence
yields exactly one group with no `title` field whose `items` are the
normalized services of the sequence; a mapping with N entries yields exactly
N groups in the mapping's declared order, each carrying its key as `title`
and the normalized service list of that key as `items`. -/
theorem normalizeServices_shapes (gen : Nat → String) (tags : TagMap) :
    (∀ items groups, normalizeServices gen tags (some (.arr items)) = .ok groups →
      ∃ svcs, determineService gen tags items 0 = .ok svcs ∧
        groups = [.obj [("items", .arr svcs)]]) ∧
    (∀ entries groups, normalizeServices gen tags (some (.obj entries)) = .ok groups →
      groups.length = entries.length ∧
      List.Forall₂ (fun (e : JField) (g : JValue) =>
        ∃ m its svcs, e.2 = .arr its ∧ determineService gen tags its m = .ok svcs ∧
          g = .obj [("title", .str e.1), ("items", .arr svcs)]) entries groups) := by
  constructor
  · intro items groups h
    simp only [normalizeServices] at h
    cases hds : determineService gen tags items 0 with
    | error e2 => rw [hds] at h; cases h
    | ok svcs =>
      rw [hds] at h
      simp only [Except.ok.injEq] at h
      exact ⟨svcs, rfl, h.symm⟩
  · intro entries groups h
    have h2 := normalizeGroups_shape gen tags entries 0 groups h
    exact ⟨h2.length_eq.symm, h2⟩

theorem normalizeServices_shapes_witness :
    (∃ svcs, determineService (fun n => toString n) [] [.obj []] 0 = .ok svcs ∧
      ([.obj [("items", .arr [.obj [("id", .str "0"), ("tags", .arr [])]])]] : List JValue) =
      [.obj [("items", .arr svcs)]]) ∧
    ([.obj [("title", .str "Dev"), ("items", .arr [.obj [("id", .str "0"), ("tags", .arr [])]])],
      .obj [("title", .str "Ops"), ("items", .arr [])]] : List JValue).length =
      ([("Dev", JValue.arr [.obj []]), ("Ops", JValue.arr [])] : List JField).length := by
  constructor
  · exact (normalizeServices_shapes (fun n => toString n) []).1 [.obj []] _ (by rfl)
  · exact ((normalizeServices_shapes (fun n => toString n) []).2
      [("Dev", JValue.arr [.obj []]), ("Ops", JValue.arr [])] _ (by rfl)).1

/-! ## Claim C7: identifier uniqueness across the whole load -/

theorem idsFrom_zero (gen : Nat → String) (n : Nat) : idsFrom gen n 0 = [] := rfl

theorem idsFrom_succ (gen : Nat → String) (n len : Nat) :
    idsFrom gen n (len + 1) = gen n :: idsFrom gen (n + 1) len := by
  unfold idsFrom
  rw [List.range_succ_eq_map]
  simp only [List.map_cons, List.map_map]
  congr 1
  apply List.map_congr_left
  intro i _
  simp only [Function.comp_apply]
  congr 1
  omega

theorem idsFrom_append (gen : Nat → String) :
    ∀ (a : Nat) (n b : Nat), idsFrom gen n a ++ idsFrom gen (n + a) b = idsFrom gen n (a + b) := by
  intro a
  induction a with
  | zero => intro n b; simp [idsFrom_zero]
  | succ a ih =>
    intro n b
    rw [idsFrom_succ]
    have h1 : n + (a + 1) = (n + 1) + a := by omega
    have h2 : a + 1 + b = (a + b) + 1 := by omega
    rw [h1, h2, idsFrom_succ, List.cons_append, ih (n + 1) b]

theorem idsFrom_nodup (gen : Nat → String) (hgen : Function.Injective gen)
    (n len : Nat) : (idsFrom gen n len).Nodup := by
  unfold idsFrom
  refine List.Nodup.map ?_ (List.nodup_range len)
  intro a b h
  have := hgen h
  omega

theorem idOf_buildService (item : JValue) (id : String) (rtags : List JValue) :
    idOf (buildService item id rtags) = id := by
  have h : ∀ fs : List JField,
      jlookup (setOrAppend (setOrAppend fs ("id") (.str id)) ("tags") (.arr rtags)) ("id") =
        some (.str id) := by
    intro fs
    rw [jlookup_setOrAppend_ne _ _ _ _ (by decide), jlookup_setOrAppend_self]
  cases item <;> simp [idOf, buildService, jfield, h]

theorem determineService_ids (gen : Nat → String) (tags : TagMap) :
    ∀ (items : List JValue) (n : Nat) (svcs : List JValue),
    determineService gen tags items n = .ok svcs →
    svcs.map idOf = idsFrom gen n items.length := by
  intro items
  induction items with
  | nil =>
    intro n svcs h
    simp only [determineService, Except.ok.injEq] at h
    subst h
    rfl
  | cons item rest ih =>
    intro n svcs h
    simp only [determineService] at h
    cases hrt : resolveTags tags (jfield item ("tags")) with
    | error e => rw [hrt] at h; cases h
    | ok rtags =>
      rw [hrt] at h
      cases hds : determineService gen tags rest (n + 1) with
      | error e => rw [hds] at h; cases h
      | ok svcs2 =>
        rw [hds] at h
        simp only [Except.ok.injEq] at h
        subst h
        simp only [List.map_cons, List.length_cons, idsFrom_succ,
          idOf_buildService, ih _ _ hds]

theorem normalizeGroups_ids (gen : Nat → String) (tags : TagMap) :
    ∀ (entries : List JField) (n : Nat) (groups : List JValue),
    normalizeGroups gen tags entries n = .ok groups →
    ∃ total, serviceIds groups = idsFrom gen n total := by
  intro entries
  induction entries with
  | nil =>
    intro n groups h
    simp only [normalizeGroups, Except.ok.injEq] at h
    subst h
    exact ⟨0, rfl⟩
  | cons e rest ih =>
    intro n groups h
    obtain ⟨title, items⟩ := e
    cases items with
    | arr its =>
      simp only [normalizeGroups] at h
      cases hds : determineService gen tags its n with
      | error e2 => rw [hds] at h; cases h
      | ok svcs =>
        rw [hds] at h
        cases hng : normalizeGroups gen tags rest (n + its.length) with
        | error e2 => rw [hng] at h; cases h
        | ok gs =>
          rw [hng] at h
          simp only [Except.ok.injEq] at h
          subst h
          obtain ⟨t2, ht2⟩ := ih _ _ hng
          refine ⟨its.length + t2, ?_⟩
          have hitems : groupItems (.obj [("title", .str title), ("items", .arr svcs)]) = svcs := rfl
          simp only [serviceIds, hitems, ht2, determineService_ids gen tags its n svcs hds,
            idsFrom_append]
    | null => cases h
    | bool b => cases h
    | num m => cases h
    | str s => cases h
    | obj fs => cases h

/-- C7: under the hypothesis that the external identifier generator returns
pairwise-distinct strings (injectivity in the call index), all service
identifiers assigned by one normalization pass — across every group of the
load — are pairwise distinct. -/
theorem normalizeServices_ids_nodup (gen : Nat → String) (tags : TagMap)
    (servicesProp : Option JValue) (svcs : List JValue)
    (hgen : Function.Injective gen)
    (h : normalizeServices gen tags servicesProp = .ok svcs) :
    (serviceIds svcs).Nodup := by
  match servicesProp with
  | some (.arr items) =>
    simp only [normalizeServices] at h
    cases hds : determineService gen tags items 0 with
    | error e => rw [hds] at h; cases h
    | ok ss =>
      rw [hds] at h
      simp only [Except.ok.injEq] at h
      subst h
      have : serviceIds [JValue.obj [("items", .arr ss)]] = ss.map idOf := by
        simp [serviceIds, groupItems, jfield, jlookup]
      rw [this, determineService_ids gen tags items 0 ss hds]
      exact idsFrom_nodup gen hgen 0 items.length
  | some (.obj entries) =>
    obtain ⟨total, ht⟩ := normalizeGroups_ids gen tags entries 0 svcs h
    rw [ht]
    exact idsFrom_nodup gen hgen 0 total
  | some .null => simp only [normalizeServices, Except.ok.injEq] at h; subst h; exact List.nodup_nil
  | some (.bool b) => simp only [normalizeServices, Except.ok.injEq] at h; subst h; exact List.nodup_nil
  | some (.num m) => simp only [normalizeServices, Except.ok.injEq] at h; subst h; exact List.nodup_nil
  | some (.str s) =>
    simp only [normalizeServices] at h
    by_cases hs : s = ""
    · rw [if_pos hs] at h
      simp only [Except.ok.injEq] at h
      subst h
      exact List.nodup_nil
    · rw [if_neg hs] at h; cases h
  | none => simp only [normalizeServices, Except.ok.injEq] at h; subst h; exact List.nodup_nil

/-! ## Lemmas on the `defu` merge (claims C3 and C1) -/

theorem jlookup_isSome_of_mem (fs : List JField) (k : String)
    (h : k ∈ keysOf fs) : (jlookup fs k).isSome = true := by
  induction fs with
  | nil => cases h
  | cons p fs ih =>
    obtain ⟨k2, v⟩ := p
    rcases List.mem_cons.1 h with rfl | hmem
    · simp [jlookup]
    · by_cases h2 : k2 = k <;> simp [jlookup, h2, ih hmem]

theorem jlookup_not_mem_of_eq_none (fs : List JField) (k : String)
    (h : jlookup fs k = none) : k ∉ keysOf fs := by
  intro hmem
  have h2 := jlookup_isSome_of_mem fs k hmem
  rw [h] at h2
  cases h2

/-- Unfolding of one `defu` step on a prototype-pollution guard key. -/
theorem defuObj_cons_skip (k : String) (v : JValue) (rest acc : List JField)
    (h : k = "__proto__" ∨ k = "constructor") :
    defuObj ((k, v) :: rest) acc = defuObj rest acc := by
  cases v with
  | null => rw [defuObj, if_pos h]
  | bool b => rw [defuObj, if_pos h]; simp
  | num n => rw [defuObj, if_pos h]; simp
  | str s => rw [defuObj, if_pos h]; simp
  | arr xs => rw [defuObj, if_pos h]; simp
  | obj fs => rw [defuObj, if_pos h]; simp

/-- Unfolding of one `defu` step on a `null` base value: skipped. -/
theorem defuObj_cons_null (k : String) (rest acc : List JField)
    (h : ¬(k = "__proto__" ∨ k = "constructor")) :
    defuObj ((k, .null) :: rest) acc = defuObj rest acc := by
  rw [defuObj, if_neg h]

/-- Unfolding of one `defu` step on a non-null value under an unguarded key. -/
theorem defuObj_cons_val (k : String) (v : JValue) (rest acc : List JField)
    (h : ¬(k = "__proto__" ∨ k = "constructor")) (hv : v ≠ .null) :
    defuObj ((k, v) :: rest) acc =
      defuObj rest (setOrAppend acc k (mergeVal v (jlookup acc k))) := by
  rw [defuObj, if_neg h]
  exact fun hh => hv hh

/-- A key absent from the base object keeps its defaults-side value. -/
theorem defuObj_lookup_not_mem :
    ∀ (bf acc : List JField) (k : String), k ∉ keysOf bf →
    jlookup (defuObj bf acc) k = jlookup acc k := by
  intro bf
  induction bf with
  | nil => intro acc k h; rfl
  | cons p rest ih =>
    intro acc k h
    obtain ⟨k2, v2⟩ := p
    simp only [keysOf_cons, List.mem_cons, not_or] at h
    obtain ⟨hne, hmem⟩ := h
    by_cases hp : k2 = "__proto__" ∨ k2 = "constructor"
    · rw [defuObj_cons_skip _ _ _ _ hp]
      exact ih acc k hmem
    · cases v2 with
      | null =>
        rw [defuObj_cons_null _ _ _ hp]
        exact ih acc k hmem
      | bool b =>
        rw [defuObj_cons_val _ _ _ _ hp (by simp)]
        exact (ih _ k hmem).trans (jlookup_setOrAppend_ne _ _ _ _ hne)
      | num n =>
        rw [defuObj_cons_val _ _ _ _ hp (by simp)]
        exact (ih _ k hmem).trans (jlookup_setOrAppend_ne _ _ _ _ hne)
      | str s =>
        rw [defuObj_cons_val _ _ _ _ hp (by simp)]
        exact (ih _ k hmem).trans (jlookup_setOrAppend_ne _ _ _ _ hne)
      | arr xs =>
        rw [defuObj_cons_val _ _ _ _ hp (by simp)]
        exact (ih _ k hmem).trans (jlookup_setOrAppend_ne _ _ _ _ hne)
      | obj gs =>
        rw [defuObj_cons_val _ _ _ _ hp (by simp)]
        exact (ih _ k hmem).trans (jlookup_setOrAppend_ne _ _ _ _ hne)

/-- A base key bound to `null` is skipped: the defaults-side value survives. -/
theorem defuObj_lookup_null :
    ∀ (bf acc : List JField) (k : String), (keysOf bf).Nodup →
    jlookup bf k = some .null →
    jlookup (defuObj bf acc) k = jlookup acc k := by
  intro bf
  induction bf with
  | nil => intro acc k _ h; cases h
  | cons p rest ih =>
    intro acc k hnd hlk
    obtain ⟨k2, v2⟩ := p
    simp only [keysOf_cons, List.nodup_cons] at hnd
    obtain ⟨hk2mem, hndrest⟩ := hnd
    by_cases heq : k2 = k
    · subst heq
      rw [jlookup_cons, if_pos rfl] at hlk
      injection hlk with hv2
      subst hv2
      have hrest : k2 ∉ keysOf rest := hk2mem
      by_cases hp : k2 = "__proto__" ∨ k2 = "constructor"
      · rw [defuObj_cons_skip _ _ _ _ hp]
        exact defuObj_lookup_not_mem rest acc k2 hrest
      · rw [defuObj_cons_null _ _ _ hp]
        exact defuObj_lookup_not_mem rest acc k2 hrest
    · rw [jlookup_cons, if_neg heq] at hlk
      by_cases hp : k2 = "__proto__" ∨ k2 = "constructor"
      · rw [defuObj_cons_skip _ _ _ _ hp]
        exact ih acc k hndrest hlk
      · cases v2 with
        | null =>
          rw [defuObj_cons_null _ _ _ hp]
          exact ih acc k hndrest hlk
        | bool b =>
          rw [defuObj_cons_val _ _ _ _ hp (by simp)]
          exact (ih _ k hndrest hlk).trans (jlookup_setOrAppend_ne _ _ _ _ (Ne.symm heq))
        | num n =>
          rw [defuObj_cons_val _ _ _ _ hp (by simp)]
          exact (ih _ k hndrest hlk).trans (jlookup_setOrAppend_ne _ _ _ _ (Ne.symm heq))
        | str s =>
          rw [defuObj_cons_val _ _ _ _ hp (by simp)]
          exact (ih _ k hndrest hlk).trans (jlookup_setOrAppend_ne _ _ _ _ (Ne.symm heq))
        | arr xs =>
          rw [defuObj_cons_val _ _ _ _ hp (by simp)]
          exact (ih _ k hndrest hlk).trans (jlookup_setOrAppend_ne _ _ _ _ (Ne.symm heq))
        | obj gs =>
          rw [defuObj_cons_val _ _ _ _ hp (by simp)]
          exact (ih _ k hndrest hlk).trans (jlookup_setOrAppend_ne _ _ _ _ (Ne.symm heq))

/-- A non-null base value (under a non-guarded key) lands in the result,
combined with the defaults-side value by `mergeVal`. -/
theorem defuObj_lookup_some :
    ∀ (bf acc : List JField) (k : String) (v : JValue), (keysOf bf).Nodup →
    jlookup bf k = some v →
    k ≠ "__proto__" → k ≠ "constructor" → v ≠ .null →
    jlookup (defuObj bf acc) k = some (mergeVal v (jlookup acc k)) := by
  intro bf
  induction bf with
  | nil => intro acc k v _ h _ _ _; cases h
  | cons p rest ih =>
    intro acc k v hnd hlk hp1 hp2 hv
    obtain ⟨k2, v2⟩ := p
    simp only [keysOf_cons, List.nodup_cons] at hnd
    obtain ⟨hk2mem, hndrest⟩ := hnd
    by_cases heq : k2 = k
    · subst heq
      rw [jlookup_cons, if_pos rfl] at hlk
      injection hlk with hv2
      subst hv2
      have hp : ¬(k2 = "__proto__" ∨ k2 = "constructor") := by
        rintro (h | h)
        · exact hp1 h
        · exact hp2 h
      have hrest : k2 ∉ keysOf rest := hk2mem
      rw [defuObj_cons_val _ _ _ _ hp hv]
      exact (defuObj_lookup_not_mem rest _ k2 hrest).trans (jlookup_setOrAppend_self _ _ _)
    · rw [jlookup_cons, if_neg heq] at hlk
      by_cases hp : k2 = "__proto__" ∨ k2 = "constructor"
      · rw [defuObj_cons_skip _ _ _ _ hp]
        exact ih acc k v hndrest hlk hp1 hp2 hv
      · cases v2 with
        | null =>
          rw [defuObj_cons_null _ _ _ hp]
          exact ih acc k v hndrest hlk hp1 hp2 hv
        | bool b =>
          rw [defuObj_cons_val _ _ _ _ hp (by simp)]
          refine (ih _ k v hndrest hlk hp1 hp2 hv).trans ?_
          rw [jlookup_setOrAppend_ne _ _ _ _ (Ne.symm heq)]
        | num n =>
          rw [defuObj_cons_val _ _ _ _ hp (by simp)]
          refine (ih _ k v hndrest hlk hp1 hp2 hv).trans ?_
          rw [jlookup_setOrAppend_ne _ _ _ _ (Ne.symm heq)]
        | str s =>
          rw [defuObj_cons_val _ _ _ _ hp (by simp)]
          refine (ih _ k v hndrest hlk hp1 hp2 hv).trans ?_
          rw [jlookup_setOrAppend_ne _ _ _ _ (Ne.symm heq)]
        | arr xs =>
          rw [defuObj_cons_val _ _ _ _ hp (by simp)]
          refine (ih _ k v hndrest hlk hp1 hp2 hv).trans ?_
          rw [jlookup_setOrAppend_ne _ _ _ _ (Ne.symm heq)]
        | obj gs =>
          rw [defuObj_cons_val _ _ _ _ hp (by simp)]
          refine (ih _ k v hndrest hlk hp1 hp2 hv).trans ?_
          rw [jlookup_setOrAppend_ne _ _ _ _ (Ne.symm heq)]

theorem mergeVal_of_isScalar :
    ∀ (v : JValue), isScalar v = true → ∀ (cur : Option JValue), mergeVal v cur = v
  | .bool b, _, cur => by
    cases cur with
    | none => rfl
    | some w => cases w <;> rfl
  | .num n, _, cur => by
    cases cur with
    | none => rfl
    | some w => cases w <;> rfl
  | .str s, _, cur => by
    cases cur with
    | none => rfl
    | some w => cases w <;> rfl
  | .null, h, _ => nomatch h
  | .arr _, h, _ => nomatch h
  | .obj _, h, _ => nomatch h

theorem mergeVal_some_str (v : JValue) (s : String) :
    mergeVal v (some (.str s)) = v := by
  cases v <;> rfl

/-! ## Claim C3: semantics of the merge over the built-in defaults -/

/-- C3 (amended): for the merge of a (key-unique) document object over the
built-in default configuration: non-null scalar document fields override the
default; array-valued document fields (`tags`, `services`) end up in the
result exactly as written in the document — `defu` concatenates
document-before-default, and every array of the built-in default is empty, so
the result coincides with wholesale replacement; the nested `behaviour`
object is merged key-by-key recursively, where a non-null document `target`
takes precedence but a null one is skipped in favour of the default
`"_blank"`; keys absent from the document retain the default value; and the
merge is a pure function of its arguments, so the default configuration
object is never mutated. -/
theorem defu_default_merge_semantics (bf : List JField)
    (hnd : (keysOf bf).Nodup) :
    (∀ k v, isScalar v = true → k ≠ "__proto__" → k ≠ "constructor" →
      jlookup bf k = some v → jlookup (defuObj bf defaultFields) k = some v) ∧
    (∀ ts, jlookup bf ("tags") = some (.arr ts) →
      jlookup (defuObj bf defaultFields) ("tags") = some (.arr ts)) ∧
    (∀ sv, jlookup bf ("services") = some (.arr sv) →
      jlookup (defuObj bf defaultFields) ("services") = some (.arr sv)) ∧
    (∀ g, jlookup bf ("behaviour") = some (.obj g) →
      jlookup (defuObj bf defaultFields) ("behaviour") =
        some (.obj (defuObj g [("target", .str "_blank")]))) ∧
    (∀ g tv, (keysOf g).Nodup → jlookup g ("target") = some tv → tv ≠ .null →
      jlookup (defuObj g [("target", .str "_blank")]) ("target") = some tv) ∧
    (∀ g, (keysOf g).Nodup → jlookup g ("target") = some .null →
      jlookup (defuObj g [("target", .str "_blank")]) ("target") =
        some (.str "_blank")) ∧
    (∀ k, jlookup bf k = none →
      jlookup (defuObj bf defaultFields) k = jlookup defaultFields k) := by
  refine ⟨?_, ?_, ?_, ?_, ?_, ?_, ?_⟩
  · intro k v hscal hk1 hk2 hlk
    rw [defuObj_lookup_some bf defaultFields k v hnd hlk hk1 hk2
      (by cases v <;> simp_all [isScalar])]
    rw [mergeVal_of_isScalar v hscal]
  · intro ts hts
    rw [defuObj_lookup_some bf defaultFields _ _ hnd hts (by decide) (by decide) (by simp)]
    show some (JValue.arr (ts ++ [])) = some (.arr ts)
    simp
  · intro sv hsv
    rw [defuObj_lookup_some bf defaultFields _ _ hnd hsv (by decide) (by decide) (by simp)]
    show some (JValue.arr (sv ++ [])) = some (.arr sv)
    simp
  · intro g hg
    rw [defuObj_lookup_some bf defaultFields _ _ hnd hg (by decide) (by decide) (by simp)]
    show some (mergeVal (.obj g) (some (.obj [("target", JValue.str "_blank")]))) = _
    rw [mergeVal]
  · intro g tv hndg htv hnull
    rw [defuObj_lookup_some g _ _ _ hndg htv (by decide) (by decide) hnull]
    show some (mergeVal tv (some (.str "_blank"))) = some tv
    rw [mergeVal_some_str]
  · intro g hndg hnullv
    rw [defuObj_lookup_null g _ _ hndg hnullv]
    rfl
  · intro k hnone
    exact defuObj_lookup_not_mem bf defaultFields k (jlookup_not_mem_of_eq_none bf k hnone)

theorem defu_default_merge_semantics_witness :
    jlookup (defuObj [("title", .str "My"), ("behaviour", .obj [("target", .str "_self")])]
      defaultFields) ("title") = some (.str "My") ∧
    jlookup (defuObj [("tags", .arr [.obj [("name", .str "x"), ("color", .str "red")]])]
      defaultFields) ("tags") = some (.arr [.obj [("name", .str "x"), ("color", .str "red")]]) ∧
    jlookup (defuObj [("behaviour", .obj [("target", .str "_self")])] defaultFields)
      ("behaviour") = some (.obj (defuObj [("target", .str "_self")]
        [("target", .str "_blank")])) ∧
    jlookup (defuObj [("target", .str "_self")] [("target", .str "_blank")]) ("target") =
      some (.str "_self") ∧
    jlookup (defuObj [("target", JValue.null)] [("target", .str "_blank")]) ("target") =
      some (.str "_blank") ∧
    jlookup (defuObj [("title", .str "My")] defaultFields) ("lang") =
      jlookup defaultFields ("lang") := by
  refine ⟨?_, ?_, ?_, ?_, ?_, ?_⟩
  · exact (defu_default_merge_semantics _ (by decide)).1 ("title") (.str "My")
      (by decide) (by decide) (by decide) (by rfl)
  · exact (defu_default_merge_semantics _ (by decide)).2.1 _ (by rfl)
  · exact (defu_default_merge_semantics _ (by decide)).2.2.2.1 _ (by rfl)
  · exact (defu_default_merge_semantics [] (by decide)).2.2.2.2.1 _ _ (by decide)
      (by rfl) (by decide)
  · exact (defu_default_merge_semantics [] (by decide)).2.2.2.2.2.1 _ (by decide) (by rfl)
  · exact (defu_default_merge_semantics _ (by decide)).2.2.2.2.2.2 ("lang") (by rfl)

/-! ## Claim C4: validation output — strip mode and idempotence -/

theorem zString_idem (v r : JValue) (h : zString v = .ok r) : zString r = .ok r := by
  cases v <;> simp only [zString] at h
  case str s =>
    injection h with h
    subst h
    rfl
  all_goals exact Except.noConfusion h

theorem zString_er (v : JValue) (es : List ZIssue) (h : zString v = .error es) :
    es ≠ [] := by
  cases v <;> simp only [zString] at h
  case str s => exact Except.noConfusion h
  all_goals (injection h with h; subst h; simp)

theorem zStringNullish_idem (v r : JValue) (h : zStringNullish v = .ok r) :
    zStringNullish r = .ok r := by
  cases v <;> simp only [zStringNullish] at h
  case str s =>
    injection h with h
    subst h
    rfl
  case null =>
    injection h with h
    subst h
    rfl
  all_goals exact Except.noConfusion h

theorem zStringNullish_er (v : JValue) (es : List ZIssue)
    (h : zStringNullish v = .error es) : es ≠ [] := by
  cases v <;> simp only [zStringNullish] at h
  case str s => exact Except.noConfusion h
  case null => exact Except.noConfusion h
  all_goals (injection h with h; subst h; simp)

theorem zBoolean_idem (v r : JValue) (h : zBoolean v = .ok r) : zBoolean r = .ok r := by
  cases v <;> simp only [zBoolean] at h
  case bool b =>
    injection h with h
    subst h
    rfl
  all_goals exact Except.noConfusion h

theorem zBoolean_er (v : JValue) (es : List ZIssue) (h : zBoolean v = .error es) :
    es ≠ [] := by
  cases v <;> simp only [zBoolean] at h
  case bool b => exact Except.noConfusion h
  all_goals (injection h with h; subst h; simp)

theorem zNumber_idem (v r : JValue) (h : zNumber v = .ok r) : zNumber r = .ok r := by
  cases v <;> simp only [zNumber] at h
  case num n =>
    injection h with h
    subst h
    rfl
  all_goals exact Except.noConfusion h

theorem zNumber_er (v : JValue) (es : List ZIssue) (h : zNumber v = .error es) :
    es ≠ [] := by
  cases v <;> simp only [zNumber] at h
  case num n => exact Except.noConfusion h
  all_goals (injection h with h; subst h; simp)

theorem zRecordAny_idem (v r : JValue) (h : zRecordAny v = .ok r) :
    zRecordAny r = .ok r := by
  cases v <;> simp only [zRecordAny] at h
  case obj fs =>
    injection h with h
    subst h
    rfl
  all_goals exact Except.noConfusion h

theorem zRecordAny_er (v : JValue) (es : List ZIssue) (h : zRecordAny v = .error es) :
    es ≠ [] := by
  cases v <;> simp only [zRecordAny] at h
  case obj fs => exact Except.noConfusion h
  all_goals (injection h with h; subst h; simp)

theorem runElems_idem (elem : ZParse)
    (hi : ∀ v r, elem v = .ok r → elem r = .ok r)
    (he : ∀ v es, elem v = .error es → es ≠ []) :
    ∀ (xs : List JValue) (i : Nat) (ws : List JValue),
    runElems elem xs i = ([], ws) → runElems elem ws i = ([], ws) := by
  intro xs
  induction xs with
  | nil =>
    intro i ws h
    simp only [runElems, Prod.mk.injEq] at h
    rw [← h.2]
    rfl
  | cons x rest ih =>
    intro i ws h
    simp only [runElems] at h
    cases hrec : runElems elem rest (i + 1) with
    | mk is2 ws2 =>
      rw [hrec] at h
      cases hx : elem x with
      | error es =>
        rw [hx] at h
        simp only [Prod.mk.injEq, List.append_eq_nil] at h
        exact absurd (by simpa [issuesUnder] using h.1.1) (he x es hx)
      | ok w =>
        rw [hx] at h
        simp only [Prod.mk.injEq] at h
        obtain ⟨h1, h2⟩ := h
        subst h1
        rw [← h2]
        simp only [runElems, ih (i + 1) ws2 hrec, hi x w hx]

theorem zArray_idem (elem : ZParse)
    (hi : ∀ v r, elem v = .ok r → elem r = .ok r)
    (he : ∀ v es, elem v = .error es → es ≠ []) :
    ∀ v r, zArray elem v = .ok r → zArray elem r = .ok r := by
  intro v r h
  cases v with
  | arr xs =>
    simp only [zArray] at h
    cases hre : runElems elem xs 0 with
    | mk is2 ws =>
      rw [hre] at h
      by_cases hemp : is2.isEmpty = true
      · rw [if_pos hemp] at h
        injection h with h
        subst h
        have his : is2 = [] := by simpa [List.isEmpty_iff] using hemp
        subst his
        simp only [zArray, runElems_idem elem hi he xs 0 ws hre]
        rfl
      · rw [if_neg hemp] at h
        cases h
  | null => simp [zArray] at h
  | bool b => simp [zArray] at h
  | num n => simp [zArray] at h
  | str s => simp [zArray] at h
  | obj fs => simp [zArray] at h

theorem zArray_er (elem : ZParse) :
    ∀ (v : JValue) (es : List ZIssue), zArray elem v = .error es → es ≠ [] := by
  intro v es h
  cases v with
  | arr xs =>
    simp only [zArray] at h
    cases hre : runElems elem xs 0 with
    | mk is2 ws =>
      rw [hre] at h
      by_cases hemp : is2.isEmpty = true
      · rw [if_pos hemp] at h
        cases h
      · rw [if_neg hemp] at h
        injection h with h
        subst h
        simpa [List.isEmpty_iff] using hemp
  | null => simp only [zArray] at h; injection h with h; subst h; simp
  | bool b => simp only [zArray] at h; injection h with h; subst h; simp
  | num n => simp only [zArray] at h; injection h with h; subst h; simp
  | str s => simp only [zArray] at h; injection h with h; subst h; simp
  | obj fs => simp only [zArray] at h; injection h with h; subst h; simp

theorem runValues_idem (elem : ZParse)
    (hi : ∀ v r, elem v = .ok r → elem r = .ok r)
    (he : ∀ v es, elem v = .error es → es ≠ []) :
    ∀ (fs : List JField) (out : List JField),
    runValues elem fs = ([], out) → runValues elem out = ([], out) := by
  intro fs
  induction fs with
  | nil =>
    intro out h
    simp only [runValues, Prod.mk.injEq] at h
    rw [← h.2]
    rfl
  | cons p rest ih =>
    intro out h
    obtain ⟨k, v⟩ := p
    simp only [runValues] at h
    cases hrec : runValues elem rest with
    | mk is2 out2 =>
      rw [hrec] at h
      cases hx : elem v with
      | error es =>
        rw [hx] at h
        simp only [Prod.mk.injEq, List.append_eq_nil] at h
        exact absurd (by simpa [issuesUnder] using h.1.1) (he v es hx)
      | ok w =>
        rw [hx] at h
        simp only [Prod.mk.injEq] at h
        obtain ⟨h1, h2⟩ := h
        subst h1
        rw [← h2]
        simp only [runValues, ih out2 hrec, hi v w hx]

theorem zRecord_idem (elem : ZParse)
    (hi : ∀ v r, elem v = .ok r → elem r = .ok r)
    (he : ∀ v es, elem v = .error es → es ≠ []) :
    ∀ v r, zRecord elem v = .ok r → zRecord elem r = .ok r := by
  intro v r h
  cases v with
  | obj fs =>
    simp only [zRecord] at h
    cases hre : runValues elem fs with
    | mk is2 ws =>
      rw [hre] at h
      by_cases hemp : is2.isEmpty = true
      · rw [if_pos hemp] at h
        injection h with h
        subst h
        have his : is2 = [] := by simpa [List.isEmpty_iff] using hemp
        subst his
        simp only [zRecord, runValues_idem elem hi he fs ws hre]
        rfl
      · rw [if_neg hemp] at h
        cases h
  | null => simp [zRecord] at h
  | bool b => simp [zRecord] at h
  | num n => simp [zRecord] at h
  | str s => simp [zRecord] at h
  | arr xs => simp [zRecord] at h

theorem zRecord_ok_shape (elem : ZParse) :
    ∀ v r, zRecord elem v = .ok r → ∃ fs, r = .obj fs := by
  intro v r h
  cases v with
  | obj fs =>
    simp only [zRecord] at h
    cases hre : runValues elem fs with
    | mk is2 ws =>
      rw [hre] at h
      by_cases hemp : is2.isEmpty = true
      · rw [if_pos hemp] at h
        injection h with h
        exact ⟨ws, h.symm⟩
      · rw [if_neg hemp] at h
        cases h
  | null => simp [zRecord] at h
  | bool b => simp [zRecord] at h
  | num n => simp [zRecord] at h
  | str s => simp [zRecord] at h
  | arr xs => simp [zRecord] at h

theorem zUnion_arr_idem (a b : ZParse)
    (ha : ∀ v r, a v = .ok r → a r = .ok r)
    (hb : ∀ v r, b v = .ok r → b r = .ok r)
    (hshape : ∀ v r, b v = .ok r → ∃ fs, r = .obj fs)
    (harej : ∀ fs, ∃ es, a (.obj fs) = .error es) :
    ∀ v r, zUnion a b v = .ok r → zUnion a b r = .ok r := by
  intro v r h
  unfold zUnion at h ⊢
  cases hav : a v with
  | ok w =>
    rw [hav] at h
    injection h with h
    subst h
    rw [ha v _ hav]
  | error ea =>
    rw [hav] at h
    cases hbv : b v with
    | ok w =>
      rw [hbv] at h
      injection h with h
      subst h
      obtain ⟨fs, rfl⟩ := hshape v _ hbv
      obtain ⟨es2, hes⟩ := harej fs
      rw [hes, hb v _ hbv]
    | error eb =>
      rw [hbv] at h
      cases h

theorem zUnion_er (a b : ZParse)
    (hae : ∀ v es, a v = .error es → es ≠ []) :
    ∀ (v : JValue) (es : List ZIssue), zUnion a b v = .error es → es ≠ [] := by
  intro v es h
  unfold zUnion at h
  cases hav : a v with
  | ok w => rw [hav] at h; cases h
  | error ea =>
    rw [hav] at h
    cases hbv : b v with
    | ok w => rw [hbv] at h; cases h
    | error eb =>
      rw [hbv] at h
      injection h with h
      subst h
      simp only [ne_eq, List.append_eq_nil, not_and]
      intro hea
      exact absurd hea (hae v ea hav)

theorem runFields_cons_irrelevant (k : String) (v : JValue) (fields : List JField) :
    ∀ specs : List FieldSpec, (∀ fs ∈ specs, fs.key ≠ k) →
    runFields ((k, v) :: fields) specs = runFields fields specs := by
  intro specs
  induction specs with
  | nil => intro _; rfl
  | cons fs rest ih =>
    intro h
    have hk : fs.key ≠ k := h fs (List.mem_cons_self fs rest)
    have hrest := ih (fun fs2 hm => h fs2 (List.mem_cons_of_mem fs hm))
    simp only [runFields, hrest, jlookup_cons, if_neg (Ne.symm hk)]

theorem runFields_out_keys (fields : List JField) :
    ∀ (specs : List FieldSpec) (is2 : List ZIssue) (out : List JField),
    runFields fields specs = (is2, out) →
    ∀ k, k ∈ keysOf out → ∃ fs ∈ specs, fs.key = k := by
  intro specs
  induction specs with
  | nil =>
    intro is2 out h k hk
    simp only [runFields, Prod.mk.injEq] at h
    rw [← h.2] at hk
    cases hk
  | cons fs rest ih =>
    intro is2 out h k hk
    simp only [runFields] at h
    cases hr : runFields fields rest with
    | mk ris rout =>
      rw [hr] at h
      cases hlk : jlookup fields fs.key with
      | none =>
        simp only [hlk] at h
        have hout : out = rout := by
          cases hreq : fs.required with
          | true =>
            simp only [hreq, Prod.mk.injEq] at h
            exact h.2.symm
          | false =>
            simp only [hreq, Prod.mk.injEq] at h
            exact h.2.symm
        subst hout
        obtain ⟨fs2, hm, hk2⟩ := ih ris out hr k hk
        exact ⟨fs2, List.mem_cons_of_mem fs hm, hk2⟩
      | some w =>
        simp only [hlk] at h
        cases hp : fs.parse w with
        | ok u =>
          simp only [hp, Prod.mk.injEq] at h
          rw [← h.2] at hk
          simp only [keysOf_cons, List.mem_cons] at hk
          rcases hk with rfl | hk
          · exact ⟨fs, List.mem_cons_self fs rest, rfl⟩
          · obtain ⟨fs2, hm, hk2⟩ := ih ris rout hr k hk
            exact ⟨fs2, List.mem_cons_of_mem fs hm, hk2⟩
        | error es =>
          simp only [hp, Prod.mk.injEq] at h
          rw [← h.2] at hk
          obtain ⟨fs2, hm, hk2⟩ := ih ris rout hr k hk
          exact ⟨fs2, List.mem_cons_of_mem fs hm, hk2⟩

theorem runFields_idem (fields : List JField) :
    ∀ (specs : List FieldSpec),
    (∀ fs ∈ specs, (∀ v r, fs.parse v = .ok r → fs.parse r = .ok r) ∧
      (∀ v es, fs.parse v = .error es → es ≠ [])) →
    (specs.map FieldSpec.key).Nodup →
    ∀ out, runFields fields specs = ([], out) → runFields out specs = ([], out) := by
  intro specs
  induction specs with
  | nil =>
    intro _ _ out h
    simp only [runFields, Prod.mk.injEq] at h
    rw [← h.2]
    rfl
  | cons fs rest ih =>
    intro hall hnd out h
    simp only [List.map_cons, List.nodup_cons] at hnd
    obtain ⟨hknotin, hndrest⟩ := hnd
    have hallrest := fun fs2 hm => hall fs2 (List.mem_cons_of_mem fs hm)
    have hrestkeys : ∀ fs2 ∈ rest, fs2.key ≠ fs.key := by
      intro fs2 hm heq
      exact hknotin (heq ▸ List.mem_map_of_mem FieldSpec.key hm)
    simp only [runFields] at h
    cases hr : runFields fields rest with
    | mk ris rout =>
      rw [hr] at h
      cases hlk : jlookup fields fs.key with
      | none =>
        simp only [hlk] at h
        cases hreq : fs.required with
        | true =>
          simp only [hreq, Prod.mk.injEq] at h
          cases h.1
        | false =>
          simp only [hreq, Prod.mk.injEq] at h
          obtain ⟨h1, h2⟩ := h
          subst h1
          subst h2
          have hout : jlookup rout fs.key = none := by
            apply jlookup_eq_none_of_not_mem
            intro hmem
            obtain ⟨fs2, hm, hk2⟩ := runFields_out_keys fields rest [] rout hr fs.key hmem
            exact hrestkeys fs2 hm hk2
          simp only [runFields, hout, hreq]
          rw [ih hallrest hndrest rout hr]
      | some w =>
        simp only [hlk] at h
        cases hp : fs.parse w with
        | error es =>
          simp only [hp, Prod.mk.injEq, List.append_eq_nil] at h
          exact absurd (by simpa [issuesUnder] using h.1.1)
            ((hall fs (List.mem_cons_self fs rest)).2 w es hp)
        | ok u =>
          simp only [hp, Prod.mk.injEq] at h
          obtain ⟨h1, h2⟩ := h
          subst h1
          rw [← h2]
          have hpu : fs.parse u = .ok u := (hall fs (List.mem_cons_self fs rest)).1 w u hp
          have hlk2 : jlookup ((fs.key, u) :: rout) fs.key = some u := by
            simp [jlookup]
          simp only [runFields, hlk2, hpu,
            runFields_cons_irrelevant fs.key u rout rest hrestkeys,
            ih hallrest hndrest rout hr]

theorem zObject_idem (specs : List FieldSpec)
    (hall : ∀ fs ∈ specs, (∀ v r, fs.parse v = .ok r → fs.parse r = .ok r) ∧
      (∀ v es, fs.parse v = .error es → es ≠ []))
    (hnd : (specs.map FieldSpec.key).Nodup) :
    ∀ v r, zObject specs v = .ok r → zObject specs r = .ok r := by
  intro v r h
  cases v with
  | obj fields =>
    simp only [zObject] at h
    cases hre : runFields fields specs with
    | mk is2 out =>
      rw [hre] at h
      by_cases hemp : is2.isEmpty = true
      · rw [if_pos hemp] at h
        injection h with h
        subst h
        have his : is2 = [] := by simpa [List.isEmpty_iff] using hemp
        subst his
        simp only [zObject, runFields_idem fields specs hall hnd out hre]
        rfl
      · rw [if_neg hemp] at h
        cases h
  | null => simp [zObject] at h
  | bool b => simp [zObject] at h
  | num n => simp [zObject] at h
  | str s => simp [zObject] at h
  | arr xs => simp [zObject] at h

theorem zObject_er (specs : List FieldSpec) :
    ∀ (v : JValue) (es : List ZIssue), zObject specs v = .error es → es ≠ [] := by
  intro v es h
  cases v with
  | obj fields =>
    simp only [zObject] at h
    cases hre : runFields fields specs with
    | mk is2 out =>
      rw [hre] at h
      by_cases hemp : is2.isEmpty = true
      · rw [if_pos hemp] at h
        cases h
      · rw [if_neg hemp] at h
        injection h with h
        subst h
        simpa [List.isEmpty_iff] using hemp
  | null => simp only [zObject] at h; injection h with h; subst h; simp
  | bool b => simp only [zObject] at h; injection h with h; subst h; simp
  | num n => simp only [zObject] at h; injection h with h; subst h; simp
  | str s => simp only [zObject] at h; injection h with h; subst h; simp
  | arr xs => simp only [zObject] at h; injection h with h; subst h; simp

theorem statusSchema_idem : ∀ v r, statusSchema v = .ok r → statusSchema r = .ok r := by
  refine zObject_idem _ ?_ (by decide)
  intro fs hfs
  rcases List.mem_cons.1 hfs with rfl | hfs
  · exact ⟨zBoolean_idem, zBoolean_er⟩
  rcases List.mem_cons.1 hfs with rfl | hfs
  · exact ⟨zNumber_idem, zNumber_er⟩
  cases hfs

theorem iconSchema_idem : ∀ v r, iconSchema v = .ok r → iconSchema r = .ok r := by
  refine zObject_idem _ ?_ (by decide)
  intro fs hfs
  rcases List.mem_cons.1 hfs with rfl | hfs
  · exact ⟨zString_idem, zString_er⟩
  rcases List.mem_cons.1 hfs with rfl | hfs
  · exact ⟨zString_idem, zString_er⟩
  rcases List.mem_cons.1 hfs with rfl | hfs
  · exact ⟨zBoolean_idem, zBoolean_er⟩
  rcases List.mem_cons.1 hfs with rfl | hfs
  · exact ⟨zString_idem, zString_er⟩
  rcases List.mem_cons.1 hfs with rfl | hfs
  · exact ⟨zString_idem, zString_er⟩
  cases hfs

theorem serviceSchema_idem : ∀ v r, serviceSchema v = .ok r → serviceSchema r = .ok r := by
  refine zObject_idem _ ?_ (by decide)
  intro fs hfs
  rcases List.mem_cons.1 hfs with rfl | hfs
  · exact ⟨zStringNullish_idem, zStringNullish_er⟩
  rcases List.mem_cons.1 hfs with rfl | hfs
  · exact ⟨zStringNullish_idem, zStringNullish_er⟩
  rcases List.mem_cons.1 hfs with rfl | hfs
  · exact ⟨zStringNullish_idem, zStringNullish_er⟩
  rcases List.mem_cons.1 hfs with rfl | hfs
  · exact ⟨zString_idem, zString_er⟩
  rcases List.mem_cons.1 hfs with rfl | hfs
  · exact ⟨iconSchema_idem, zObject_er _⟩
  rcases List.mem_cons.1 hfs with rfl | hfs
  · exact ⟨statusSchema_idem, zObject_er _⟩
  rcases List.mem_cons.1 hfs with rfl | hfs
  · exact ⟨zString_idem, zString_er⟩
  rcases List.mem_cons.1 hfs with rfl | hfs
  · exact ⟨zRecordAny_idem, zRecordAny_er⟩
  rcases List.mem_cons.1 hfs with rfl | hfs
  · exact ⟨zRecordAny_idem, zRecordAny_er⟩
  cases hfs

theorem serviceSchema_er :
    ∀ (v : JValue) (es : List ZIssue), serviceSchema v = .error es → es ≠ [] :=
  zObject_er _

/-- C4 (amended): `validateConfigSchema` returns the input with unrecognized
fields stripped (zod default strip mode), not the input itself; consequently
validation is idempotent — re-validating an already-validated value returns
it unchanged, and an input containing only recognized fields in schema order
is returned as is. -/
theorem validateConfigSchema_idem (v r : JValue)
    (h : validateConfigSchema v = .ok r) : validateConfigSchema r = .ok r := by
  refine zObject_idem _ ?_ (by decide) v r h
  intro fs hfs
  rcases List.mem_cons.1 hfs with rfl | hfs
  · exact ⟨zString_idem, zString_er⟩
  rcases List.mem_cons.1 hfs with rfl | hfs
  · exact ⟨zString_idem, zString_er⟩
  rcases List.mem_cons.1 hfs with rfl | hfs
  · exact ⟨zString_idem, zString_er⟩
  rcases List.mem_cons.1 hfs with rfl | hfs
  · exact ⟨zBoolean_idem, zBoolean_er⟩
  rcases List.mem_cons.1 hfs with rfl | hfs
  · refine ⟨zArray_idem _ ?_ ?_, zArray_er _⟩
    · intro v2 r2 h2
      refine zObject_idem _ ?_ (by decide) v2 r2 h2
      intro fs2 hfs2
      rcases List.mem_cons.1 hfs2 with rfl | hfs2
      · exact ⟨zString_idem, zString_er⟩
      rcases List.mem_cons.1 hfs2 with rfl | hfs2
      · exact ⟨zString_idem, zString_er⟩
      cases hfs2
    · exact zObject_er _
  rcases List.mem_cons.1 hfs with rfl | hfs
  · refine ⟨zUnion_arr_idem _ _ (zArray_idem _ serviceSchema_idem serviceSchema_er)
      (zRecord_idem _ (zArray_idem _ serviceSchema_idem serviceSchema_er) (zArray_er _))
      (zRecord_ok_shape _) (fun fs2 => ⟨_, rfl⟩), zUnion_er _ _ (zArray_er _)⟩
  cases hfs

theorem validateConfigSchema_idem_witness :
    validateConfigSchema (.obj [("services", .arr [])]) =
      .ok (.obj [("services", .arr [])]) :=
  validateConfigSchema_idem (.obj [("foo", .num 1), ("services", .arr [])])
    (.obj [("services", .arr [])]) (by rfl)

/-- C4 (counterexample to the claim as stated): zod object schemas run in
strip mode, so an accepted input with an unrecognized field is returned with
that field dropped — the result is not the input value. -/
theorem validateConfigSchema_strip_counterexample :
    validateConfigSchema (.obj [("foo", .num 1), ("services", .arr [])]) =
      .ok (.obj [("services", .arr [])]) ∧
    JValue.obj [("services", .arr [])] ≠ .obj [("foo", .num 1), ("services", .arr [])] :=
  ⟨rfl, by decide⟩

/-! ## Claim C8: the zod error report, its pruning, and the `format` raise -/

theorem jlookup_append_left (fs gs : List JField) (k : String) (w : JValue)
    (h : jlookup fs k = some w) : jlookup (fs ++ gs) k = some w := by
  induction fs with
  | nil => cases h
  | cons p fs ih =>
    obtain ⟨k2, v2⟩ := p
    rw [jlookup_cons] at h
    rw [List.cons_append, jlookup_cons]
    by_cases h2 : k2 = k
    · rw [if_pos h2] at h ⊢
      exact h
    · rw [if_neg h2] at h ⊢
      exact ih h

theorem jlookup_replaceField_self (fs : List JField) (key : String) (v w : JValue)
    (h : jlookup fs key = some w) :
    jlookup (replaceField fs key v) key = some v := by
  induction fs with
  | nil => cases h
  | cons p fs ih =>
    obtain ⟨k2, v2⟩ := p
    rw [jlookup_cons] at h
    have hc : replaceField ((k2, v2) :: fs) key v =
        (if k2 = key then (k2, v) else (k2, v2)) :: replaceField fs key v := rfl
    rw [hc]
    by_cases h2 : k2 = key
    · rw [if_pos h2, jlookup_cons, if_pos h2]
    · rw [if_neg h2] at h
      rw [if_neg h2, jlookup_cons, if_neg h2]
      exact ih h

theorem jlookup_replaceField_ne (fs : List JField) (key key2 : String) (v : JValue)
    (h : ¬ key2 = key) : jlookup (replaceField fs key v) key2 = jlookup fs key2 := by
  induction fs with
  | nil => rfl
  | cons p fs ih =>
    obtain ⟨k2, v2⟩ := p
    have hc : replaceField ((k2, v2) :: fs) key v =
        (if k2 = key then (k2, v) else (k2, v2)) :: replaceField fs key v := rfl
    rw [hc]
    by_cases h2 : k2 = key
    · have h3 : ¬ k2 = key2 := by
        rw [h2]
        exact fun hh => h hh.symm
      rw [if_pos h2, jlookup_cons, jlookup_cons, if_neg h3, if_neg h3]
      exact ih
    · rw [if_neg h2, jlookup_cons, jlookup_cons, ih]

theorem hasErrorsArr_elim (fs : List JField) (h : hasErrorsArr fs = true) :
    ∃ xs, jlookup fs ("_errors") = some (.arr xs) := by
  unfold hasErrorsArr at h
  cases hl : jlookup fs ("_errors") with
  | none =>
    simp only [hl] at h
    exact Bool.noConfusion h
  | some v =>
    cases v with
    | arr xs => exact ⟨xs, rfl⟩
    | null =>
      simp only [hl] at h
      exact Bool.noConfusion h
    | bool b =>
      simp only [hl] at h
      exact Bool.noConfusion h
    | num n =>
      simp only [hl] at h
      exact Bool.noConfusion h
    | str s =>
      simp only [hl] at h
      exact Bool.noConfusion h
    | obj gs =>
      simp only [hl] at h
      exact Bool.noConfusion h

theorem hasErrorsArr_replace_errors (fs : List JField) (xs : List JValue) (ys : List JValue)
    (h : jlookup fs ("_errors") = some (.arr xs)) :
    hasErrorsArr (replaceField fs ("_errors") (.arr ys)) = true := by
  unfold hasErrorsArr
  rw [jlookup_replaceField_self fs ("_errors") (.arr ys) (.arr xs) h]

theorem hasErrorsArr_replace_ne (fs : List JField) (key : String) (w : JValue)
    (hk : ¬ key = "_errors") (h : hasErrorsArr fs = true) :
    hasErrorsArr (replaceField fs key w) = true := by
  obtain ⟨xs, hl⟩ := hasErrorsArr_elim fs h
  unfold hasErrorsArr
  rw [jlookup_replaceField_ne fs key ("_errors") w (fun hh => hk hh.symm), hl]

theorem hasErrorsArr_append (fs gs : List JField) (h : hasErrorsArr fs = true) :
    hasErrorsArr (fs ++ gs) = true := by
  obtain ⟨xs, hl⟩ := hasErrorsArr_elim fs h
  unfold hasErrorsArr
  rw [jlookup_append_left fs gs ("_errors") (.arr xs) hl]

theorem goodTree_obj_elim (fs : List JField) (h : goodTree (.obj fs) = true) :
    hasErrorsArr fs = true ∧ goodFields fs = true := by
  simp only [goodTree, Bool.and_eq_true] at h
  exact h

theorem goodTree_obj_intro (fs : List JField) (h1 : hasErrorsArr fs = true)
    (h2 : goodFields fs = true) : goodTree (.obj fs) = true := by
  simp only [goodTree, Bool.and_eq_true]
  exact ⟨h1, h2⟩

theorem goodTree_truthy (v : JValue) (h : goodTree v = true) : truthy v = true := by
  cases v with
  | obj fs => rfl
  | null => exact Bool.noConfusion h
  | bool b => exact Bool.noConfusion h
  | num n => exact Bool.noConfusion h
  | str s => exact Bool.noConfusion h
  | arr xs => exact Bool.noConfusion h

theorem goodFields_lookup (fs : List JField) (k : String) (v : JValue)
    (hg : goodFields fs = true) (hk : ¬ k = "_errors") (h : jlookup fs k = some v) :
    goodTree v = true := by
  induction fs with
  | nil => cases h
  | cons p fs ih =>
    obtain ⟨k2, v2⟩ := p
    simp only [goodFields, Bool.and_eq_true] at hg
    rw [jlookup_cons] at h
    by_cases h2 : k2 = k
    · rw [if_pos h2] at h
      injection h with h
      have hg1 := hg.1
      rw [h2] at hg1
      rw [if_neg hk] at hg1
      rw [← h]
      exact hg1
    · rw [if_neg h2] at h
      exact ih hg.2 h

theorem goodFields_replace (fs : List JField) (key : String) (w : JValue)
    (hg : goodFields fs = true)
    (hw : (if key = "_errors" then isArr w else goodTree w) = true) :
    goodFields (replaceField fs key w) = true := by
  induction fs with
  | nil => rfl
  | cons p fs ih =>
    obtain ⟨k2, v2⟩ := p
    simp only [goodFields, Bool.and_eq_true] at hg
    have hc : replaceField ((k2, v2) :: fs) key w =
        (if k2 = key then (k2, w) else (k2, v2)) :: replaceField fs key w := rfl
    rw [hc]
    by_cases h2 : k2 = key
    · rw [if_pos h2]
      simp only [goodFields, Bool.and_eq_true]
      refine ⟨?_, ih hg.2⟩
      rw [h2]
      exact hw
    · rw [if_neg h2]
      simp only [goodFields, Bool.and_eq_true]
      exact ⟨hg.1, ih hg.2⟩

theorem goodFields_append (fs gs : List JField) :
    goodFields (fs ++ gs) = (goodFields fs && goodFields gs) := by
  induction fs with
  | nil => simp [goodFields]
  | cons p fs ih =>
    obtain ⟨k, v⟩ := p
    simp [goodFields, ih, Bool.and_assoc]

theorem emptyNode_good : goodTree emptyNode = true := rfl

theorem insertIssue_ok (msg : String) : ∀ (path : List String), "_errors" ∉ path →
    ∀ (v : JValue), goodTree v = true →
    ∃ t, insertIssue v path msg = .ok t ∧ goodTree t = true := by
  intro path
  induction path with
  | nil =>
    intro _ v hv
    cases v with
    | obj fs =>
      obtain ⟨h1, h2⟩ := goodTree_obj_elim fs hv
      obtain ⟨xs, hl⟩ := hasErrorsArr_elim fs h1
      refine ⟨.obj (replaceField fs ("_errors") (.arr (xs ++ [.str msg]))), ?_, ?_⟩
      · simp only [insertIssue, hl]
      · refine goodTree_obj_intro _ ?_ ?_
        · exact hasErrorsArr_replace_errors fs xs _ hl
        · exact goodFields_replace fs ("_errors") (.arr (xs ++ [.str msg])) h2 (by rfl)
    | null => exact Bool.noConfusion hv
    | bool b => exact Bool.noConfusion hv
    | num n => exact Bool.noConfusion hv
    | str s => exact Bool.noConfusion hv
    | arr xs => exact Bool.noConfusion hv
  | cons seg rest ih =>
    intro hmem v hv
    simp only [List.mem_cons, not_or] at hmem
    obtain ⟨hseg, hrest⟩ := hmem
    have hne : ¬ seg = "_errors" := fun hh => hseg hh.symm
    cases v with
    | obj fs =>
      obtain ⟨h1, h2⟩ := goodTree_obj_elim fs hv
      cases hlk : jlookup fs seg with
      | some child =>
        have hchild : goodTree child = true := goodFields_lookup fs seg child h2 hne hlk
        obtain ⟨t, ht, hgt⟩ := ih hrest child hchild
        refine ⟨.obj (replaceField fs seg t), ?_, ?_⟩
        · simp only [insertIssue, hlk, goodTree_truthy child hchild, if_true, ht]
        · refine goodTree_obj_intro _ (hasErrorsArr_replace_ne fs seg t hne h1) ?_
          refine goodFields_replace fs seg t h2 ?_
          rw [if_neg hne]
          exact hgt
      | none =>
        obtain ⟨t, ht, hgt⟩ := ih hrest emptyNode emptyNode_good
        refine ⟨.obj (fs ++ [(seg, t)]), ?_, ?_⟩
        · simp only [insertIssue, hlk, ht]
        · refine goodTree_obj_intro _ (hasErrorsArr_append fs _ h1) ?_
          rw [goodFields_append]
          simp only [Bool.and_eq_true]
          refine ⟨h2, ?_⟩
          simp only [goodFields, Bool.and_eq_true]
          refine ⟨?_, by trivial⟩
          rw [if_neg hne]
          exact hgt
    | null => exact Bool.noConfusion hv
    | bool b => exact Bool.noConfusion hv
    | num n => exact Bool.noConfusion hv
    | str s => exact Bool.noConfusion hv
    | arr xs => exact Bool.noConfusion hv

theorem insertAll_ok : ∀ (issues : List ZIssue),
    (∀ i ∈ issues, ("_errors" : String) ∉ i.path) →
    ∀ (v : JValue), goodTree v = true →
    ∃ t, insertAll v issues = .ok t ∧ goodTree t = true := by
  intro issues
  induction issues with
  | nil =>
    intro _ v hv
    exact ⟨v, rfl, hv⟩
  | cons i rest ih =>
    intro hall v hv
    obtain ⟨t1, ht1, hg1⟩ :=
      insertIssue_ok i.message i.path (hall i (List.mem_cons_self i rest)) v hv
    obtain ⟨t2, ht2, hg2⟩ := ih (fun j hj => hall j (List.mem_cons_of_mem i hj)) t1 hg1
    refine ⟨t2, ?_, hg2⟩
    simp only [insertAll, ht1, ht2]

theorem formatIssues_ok (issues : List ZIssue)
    (h : ∀ i ∈ issues, ("_errors" : String) ∉ i.path) :
    ∃ t, formatIssues issues = .ok t ∧ goodTree t = true :=
  insertAll_ok issues h emptyNode emptyNode_good

theorem pruneEmptyList_ne_nil (xs : List JValue) (h : xs ≠ []) :
    pruneEmptyList xs ≠ [] := by
  cases xs with
  | nil => exact absurd rfl h
  | cons x xs => simp [pruneEmptyList]

mutual

theorem pruneEmpty_noEmpty : ∀ (v : JValue), noEmptyErrors (pruneEmpty v) = true
  | .null => rfl
  | .bool _ => rfl
  | .num _ => rfl
  | .str _ => rfl
  | .arr xs => by
    simpa [pruneEmpty, noEmptyErrors] using pruneEmptyList_noEmpty xs
  | .obj fs => by
    simpa [pruneEmpty, noEmptyErrors] using pruneEmptyFields_noEmpty fs

theorem pruneEmptyList_noEmpty : ∀ (xs : List JValue),
    noEmptyErrorsList (pruneEmptyList xs) = true
  | [] => rfl
  | x :: xs => by
    simp [pruneEmptyList, noEmptyErrorsList, pruneEmpty_noEmpty x,
      pruneEmptyList_noEmpty xs]

theorem pruneEmptyFields_noEmpty : ∀ (fs : List JField),
    noEmptyErrorsFields (pruneEmptyFields fs) = true
  | [] => rfl
  | (k, v) :: fs => by
    by_cases hc : k = "_errors" ∧ lengthFalsy v = true
    · simp only [pruneEmptyFields, if_pos hc]
      exact pruneEmptyFields_noEmpty fs
    · simp only [pruneEmptyFields, if_neg hc]
      simp only [noEmptyErrorsFields, Bool.and_eq_true]
      refine ⟨⟨?_, pruneEmpty_noEmpty v⟩, pruneEmptyFields_noEmpty fs⟩
      by_cases hk : k = "_errors"
      · have hlf : ¬ lengthFalsy v = true := fun hh => hc ⟨hk, hh⟩
        cases v with
        | arr xs =>
          have hxs : xs ≠ [] := by
            intro hnil
            exact hlf (by simp [hnil, lengthFalsy])
          simp [hk, pruneEmpty, lengthFalsy, List.isEmpty_iff,
            pruneEmptyList_ne_nil xs hxs]
        | str s =>
          simp only [lengthFalsy] at hlf
          simp [hk, pruneEmpty, lengthFalsy, hlf]
        | null => exact absurd rfl hlf
        | bool b => exact absurd rfl hlf
        | num n => exact absurd rfl hlf
        | obj gs => exact absurd rfl hlf
      · simp [hk]

end

/-- C8 (amended): when schema validation rejects the parsed document and the
`ZodError.format` walk completes — which it does whenever no issue path
contains the reserved segment `_errors` — the load resolves to the default
configuration whose `error` string is the JSON rendering (single-space
indentation) of the format tree after the stringify replacer has pruned the
empty `_errors` leaves, and that pruned report contains no `_errors` field
holding an empty list.  The claim as stated is refuted by the counterexample:
a rejected document can drive `format()` into a `TypeError` that escapes the
`catch`, so no error report is produced at all, and a pre-validation
`TypeError` from `createTagMap` yields its message, not a zod report. -/
theorem loadLocalConfig_zod_error_report (gen : Nat → String) (config : JValue)
    (tm : TagMap) (issues : List ZIssue)
    (h1 : tagMapOf config = .ok tm)
    (h2 : validateConfigSchema config = .error issues)
    (h3 : ∀ i ∈ issues, ("_errors" : String) ∉ i.path) :
    ∃ t, formatIssues issues = .ok t ∧
      loadLocalConfig gen (.parsedDoc config) =
        .ok (setField getDefaultConfig ("error") (.str (stringifyJson (pruneEmpty t)))) ∧
      jfield (setField getDefaultConfig ("error") (.str (stringifyJson (pruneEmpty t))))
        ("error") = some (.str (stringifyJson (pruneEmpty t))) ∧
      noEmptyErrors (pruneEmpty t) = true := by
  obtain ⟨t, ht, hg⟩ := formatIssues_ok issues h3
  refine ⟨t, ht, ?_, ?_, pruneEmpty_noEmpty _⟩
  · simp only [loadLocalConfig, h1, h2, catchHandler, ht]
  · exact jlookup_setOrAppend_self defaultFields ("error") _

theorem loadLocalConfig_zod_error_report_witness :
    (tagMapOf (.obj [("services", .num 5)]) = .ok (createTagMap []) ∧
     validateConfigSchema (.obj [("services", .num 5)]) = .error
       [⟨["services"], "Expected array, received number"⟩,
        ⟨["services"], "Expected object, received number"⟩]) ∧
    (∃ t, formatIssues
        [⟨["services"], "Expected array, received number"⟩,
         ⟨["services"], "Expected object, received number"⟩] = .ok t ∧
      loadLocalConfig (fun n => toString n) (.parsedDoc (.obj [("services", .num 5)])) =
        .ok (setField getDefaultConfig ("error") (.str (stringifyJson (pruneEmpty t)))) ∧
      jfield (setField getDefaultConfig ("error") (.str (stringifyJson (pruneEmpty t))))
        ("error") = some (.str (stringifyJson (pruneEmpty t))) ∧
      noEmptyErrors (pruneEmpty t) = true) :=
  ⟨⟨rfl, rfl⟩, loadLocalConfig_zod_error_report (fun n => toString n)
    (.obj [("services", .num 5)]) (createTagMap [])
    [⟨["services"], "Expected array, received number"⟩,
     ⟨["services"], "Expected object, received number"⟩] rfl rfl (by decide)⟩

/-- C8 (counterexample to the claim as stated): for the parsed document
`\x7bservices: \x7b_errors: 5\x7d\x7d` validation rejects, but the error
report never reaches `config.error`: `e.format()` walks the issue path
`["services", "_errors"]` into the messages array of the `services` node and
raises `TypeError: Cannot read properties of undefined (reading 'push')`,
which escapes the `catch`.  And for `\x7btags: [null], services: []\x7d` the
`error` string is the `TypeError` message thrown by `createTagMap` before
validation runs, not a stringified zod report. -/
theorem zod_error_report_counterexample :
    (validateConfigSchema (.obj [("services", .obj [("_errors", .num 5)])])).isOk = false ∧
    loadLocalConfig (fun n => toString n)
      (.parsedDoc (.obj [("services", .obj [("_errors", .num 5)])])) =
      .error (.err "Cannot read properties of undefined (reading 'push')") ∧
    loadLocalConfig (fun n => toString n)
      (.parsedDoc (.obj [("tags", .arr [JValue.null]), ("services", .arr [])])) =
      .ok (.obj (defaultFields ++
        [("error", .str "Cannot read properties of null (reading 'name')")])) :=
  ⟨rfl, rfl, rfl⟩

/-! ## Claim C1: the failure-path shape of `loadLocalConfig` -/

/-- The `catch` block itself: for every caught value the handler either
returns the default configuration with an `error` string overlaid, returns
it unchanged, or re-raises — and a re-raise happens only when
`ZodError.format` raises on some issue list. -/
theorem catchHandler_shape (e : Thrown) :
    (∃ m, catchHandler getDefaultConfig e =
      .ok (setField getDefaultConfig ("error") (.str m))) ∨
    catchHandler getDefaultConfig e = .ok getDefaultConfig ∨
    (∃ er issues, catchHandler getDefaultConfig e = .error er ∧
      formatIssues issues = .error er) := by
  cases e with
  | err m => exact Or.inl ⟨m, rfl⟩
  | other v => exact Or.inr (Or.inl rfl)
  | zod issues =>
    cases hf : formatIssues issues with
    | ok t =>
      refine Or.inl ⟨stringifyJson (pruneEmpty t), ?_⟩
      simp only [catchHandler, hf]
    | error er =>
      refine Or.inr (Or.inr ⟨er, issues, ?_, hf⟩)
      simp only [catchHandler, hf]

/-- C1 (amended): every result of `loadLocalConfig` is one of: the default
configuration with only the `error` field overlaid; the default
configuration unchanged (non-Error throw); a raise — possible only when the
`catch` block's call to `ZodError.format` itself raises — so the promise
rejects instead of producing a configuration; or the success path, the merge
of the validated document (with normalized services) over the defaults.  The
claim's "never raises" is refuted by the format raise, and the stated
error-present⇒default-config implication by a successfully loaded document
that itself carries an `error` key (see the counterexample). -/
theorem loadLocalConfig_failure_shape (gen : Nat → String) (outcome : LoadOutcome) :
    (∃ m, loadLocalConfig gen outcome = .ok (setField getDefaultConfig ("error") (.str m))) ∨
    loadLocalConfig gen outcome = .ok getDefaultConfig ∨
    (∃ er issues, loadLocalConfig gen outcome = .error er ∧
      formatIssues issues = .error er) ∨
    (∃ cfs tags services, outcome = .parsedDoc (.obj cfs) ∧
      tagMapOf (.obj cfs) = .ok tags ∧
      (validateConfigSchema (.obj cfs)).isOk = true ∧
      normalizeServices gen tags (jlookup cfs ("services")) = .ok services ∧
      loadLocalConfig gen outcome =
        .ok (.obj (defuObj (setOrAppend cfs ("services") (.arr services)) defaultFields))) := by
  have hch : ∀ (e : Thrown),
      loadLocalConfig gen outcome = catchHandler getDefaultConfig e →
      (∃ m, loadLocalConfig gen outcome =
        .ok (setField getDefaultConfig ("error") (.str m))) ∨
      loadLocalConfig gen outcome = .ok getDefaultConfig ∨
      (∃ er issues, loadLocalConfig gen outcome = .error er ∧
        formatIssues issues = .error er) := by
    intro e he
    rcases catchHandler_shape e with ⟨m, hm⟩ | hd | ⟨er, issues, her, hf⟩
    · exact Or.inl ⟨m, he.trans hm⟩
    · exact Or.inr (Or.inl (he.trans hd))
    · exact Or.inr (Or.inr ⟨er, issues, he.trans her, hf⟩)
  have embed : ((∃ m, loadLocalConfig gen outcome =
        .ok (setField getDefaultConfig ("error") (.str m))) ∨
      loadLocalConfig gen outcome = .ok getDefaultConfig ∨
      (∃ er issues, loadLocalConfig gen outcome = .error er ∧
        formatIssues issues = .error er)) →
      ((∃ m, loadLocalConfig gen outcome =
        .ok (setField getDefaultConfig ("error") (.str m))) ∨
      loadLocalConfig gen outcome = .ok getDefaultConfig ∨
      (∃ er issues, loadLocalConfig gen outcome = .error er ∧
        formatIssues issues = .error er) ∨
      (∃ cfs tags services, outcome = .parsedDoc (.obj cfs) ∧
        tagMapOf (.obj cfs) = .ok tags ∧
        (validateConfigSchema (.obj cfs)).isOk = true ∧
        normalizeServices gen tags (jlookup cfs ("services")) = .ok services ∧
        loadLocalConfig gen outcome =
          .ok (.obj (defuObj (setOrAppend cfs ("services") (.arr services))
            defaultFields)))) := by
    rintro (h | h | h)
    · exact Or.inl h
    · exact Or.inr (Or.inl h)
    · exact Or.inr (Or.inr (Or.inl h))
  cases outcome with
  | notFound => exact embed (hch (.err "Config not found") rfl)
  | parseFailure m => exact embed (hch (.err m) rfl)
  | externalThrow e => exact embed (hch e rfl)
  | parsedDoc config =>
    cases config with
    | null => exact embed (hch (.zod [⟨[], "Expected object, received null"⟩]) rfl)
    | bool b => exact embed (hch (.zod [⟨[], "Expected object, received boolean"⟩]) rfl)
    | num n => exact embed (hch (.zod [⟨[], "Expected object, received number"⟩]) rfl)
    | str s => exact embed (hch (.zod [⟨[], "Expected object, received string"⟩]) rfl)
    | arr xs => exact embed (hch (.zod [⟨[], "Expected object, received array"⟩]) rfl)
    | obj cfs =>
      cases htm : tagMapOf (.obj cfs) with
      | error e =>
        refine embed (hch e ?_)
        simp only [loadLocalConfig, htm]
      | ok tags =>
        cases hv : validateConfigSchema (.obj cfs) with
        | error issues =>
          refine embed (hch (.zod issues) ?_)
          simp only [loadLocalConfig, htm, hv]
        | ok w =>
          cases hn : normalizeServices gen tags (jfield (.obj cfs) ("services")) with
          | error e =>
            refine embed (hch e ?_)
            simp only [loadLocalConfig, htm, hv, hn]
          | ok services =>
            refine Or.inr (Or.inr (Or.inr ⟨cfs, tags, services, rfl, htm, ?_, hn, ?_⟩))
            · rw [hv]
              rfl
            · simp only [loadLocalConfig, htm, hv, hn]

/-- C1 (counterexample to the claim as stated): the document
`\x7bservices: [], error: "fake"\x7d` passes validation (unknown keys are
accepted), so the load succeeds and returns a merged user configuration
whose `error` field is present — yet the result is not the default
configuration with that error overlaid (its `services` are the document's).
And the document `\x7bservices: \x7b_errors: true\x7d\x7d` makes the load
raise rather than return any configuration value. -/
theorem loadLocalConfig_error_field_counterexample :
    (loadLocalConfig (fun n => toString n) (.parsedDoc (.obj [("services", .arr []),
      ("error", .str "fake")]))).map (fun c => jfield c ("error")) =
      .ok (some (.str "fake")) ∧
    loadLocalConfig (fun n => toString n) (.parsedDoc (.obj [("services", .arr []),
      ("error", .str "fake")])) ≠ .ok (setField getDefaultConfig ("error") (.str "fake")) ∧
    (loadLocalConfig (fun n => toString n)
      (.parsedDoc (.obj [("services", .obj [("_errors", .bool true)])]))).isOk = false :=
  ⟨rfl, by decide, rfl⟩

/-- C3 (counterexample to the claim as stated): the validated document
`{services: [], behaviour: {target: null}}` reaches the merge with
`behaviour.target` explicitly set to `null`, yet the merged configuration
carries the default `"_blank"` — the document value does not take
precedence, because `defu` skips null values. -/
theorem defu_merge_null_counterexample :
    (validateConfigSchema (.obj [("services", .arr []),
      ("behaviour", .obj [("target", JValue.null)])])).isOk = true ∧
    jfield (.obj [("services", .arr []), ("behaviour", .obj [("target", JValue.null)])])
      ("behaviour") = some (.obj [("target", JValue.null)]) ∧
    (loadLocalConfig (fun n => toString n) (.parsedDoc (.obj [("services", .arr []),
      ("behaviour", .obj [("target", JValue.null)])]))).map
      (fun c => jfield c ("behaviour")) = .ok (some (.obj [("target", .str "_blank")])) ∧
    JValue.obj [("target", .str "_blank")] ≠ .obj [("target", JValue.null)] :=
  ⟨rfl, rfl, rfl, by decide⟩

theorem normalizeServices_ids_nodup_witness :
    (serviceIds [.obj [("title", .str "Dev"),
       ("items", .arr [.obj [("id", .str "a"), ("tags", .arr [])]])],
     .obj [("title", .str "Ops"),
       ("items", .arr [.obj [("id", .str "aa"), ("tags", .arr [])]])]]).Nodup := by
  refine normalizeServices_ids_nodup (fun n => String.mk (List.replicate (n + 1) ('a'))) []
    (some (.obj [("Dev", .arr [.obj []]), ("Ops", .arr [.obj []])])) _ ?_ (by rfl)
  intro a b h
  have h2 : List.replicate (a + 1) ('a') = List.replicate (b + 1) ('a') := by
    injection h
  have h3 := congrArg List.length h2
  simpa using h3

end Mafl
